import Mathlib

/-!
# Verification of the symbol-obfuscator core

A shallow embedding, in Lean 4, of the symbol renaming engine of the
`symbol-obfuscator` repository:

* `src/crypto_hasher.cpp`   — the crypto-hasher (`CryptoHasher`, `SipHasher`);
* `src/cpp_mangler.cpp`     — the Itanium mangled-name codec
  (`CppDemangler`, `CppMangler`);
* `src/c_obfuscator.cpp`    — the source-text rename driver
  (`CSymbolObfuscator`), its preservation oracle, text rewriter and
  mapping store;
* `passes/SymbolObfuscationPass.cpp` — the IR pass's mapping store
  (`saveMapping`) and preservation data.

Machine integers (`uint64_t`, `uint32_t`, bytes) are embedded as `Nat`
with explicit reduction modulo `2 ^ 64`, `2 ^ 32` and `256`.  C++
`std::string` values are embedded as Lean `String`s; where a function
consumes the *bytes* of a string (the hash primitives) we take the
sequence of `Char.toNat` codes, which coincides with the byte sequence
for the ASCII data (identifiers, salts, mangled names) the program
feeds them.  `std::set<std::string>` is embedded as a `List String`
queried by membership.  Fallible code (`throw std::runtime_error`)
returns `Except String _`.

External collaborators that are not part of the repository are modelled
from the specification and marked as such in their doc comments: the
OpenSSL SHA-256 and BLAKE2b primitives, the host `__cxa_demangle`
demangler, and the JSON text layer (the mapping store is embedded at the
level of structured JSON values).
-/

set_option maxRecDepth 1000000

namespace SymbolObfuscator

/-! ## Character and byte helpers -/

/-- `std::isdigit` on the ASCII characters the program handles. -/
def isDigitChar (c : Char) : Bool := '0' ≤ c && c ≤ '9'

/-- Identifier characters, as `CSymbolObfuscator::isIdentifierChar`:
`std::isalnum(c) || c == '_'`. -/
def isIdentChar (c : Char) : Bool := c.isAlphanum || c = '_'

/-- The bytes of a string, as the C++ hash primitives read them
(`data.c_str()`); for the ASCII strings the program hashes this is the
UTF-8 byte sequence. -/
def strBytes (s : String) : List Nat := s.data.map Char.toNat

/-- One lower-case hexadecimal digit, as `std::hex` prints it. -/
def hexDigit (n : Nat) : Char :=
  if n < 10 then Char.ofNat ('0'.toNat + n)
  else Char.ofNat ('a'.toNat + (n - 10))

/-- The lower-case hexadecimal digits of `n`, most significant first
(the empty list for `0`), as `std::hex` produces them before padding.
The structural fuel (first argument of the worker) is the number itself,
which always dominates the digit count. -/
def hexDigitsAux : Nat → Nat → List Char
  | _, 0 => []
  | 0, _ + 1 => []
  | fuel + 1, n + 1 =>
    hexDigitsAux fuel ((n + 1) / 16) ++ [hexDigit ((n + 1) % 16)]

def hexDigitsOf (n : Nat) : List Char := hexDigitsAux n n

/-- `std::setw w` with `std::setfill ('0')` over `std::hex`: the digits
of `n`, zero-padded on the left to width `w` (at least one digit is
printed even for zero). -/
def hexPad (w : Nat) (n : Nat) : List Char :=
  let ds := if n = 0 then ['0'] else hexDigitsOf n
  List.replicate (w - ds.length) '0' ++ ds

/-- `CryptoHasher::hexEncode`: each byte printed as two zero-padded
lower-case hex characters. -/
def hexEncode (bytes : List Nat) : String :=
  ⟨bytes.foldr (fun b acc => hexPad 2 b ++ acc) []⟩

/-! ## 64-bit modular arithmetic -/

def M64 : Nat := 2 ^ 64

/-- `uint64_t` addition. -/
def add64 (a b : Nat) : Nat := (a + b) % M64

/-- `uint64_t` exclusive or (`Nat.xor` never leaves the width of its
arguments). -/
def xor64 (a b : Nat) : Nat := a ^^^ b

/-- `SipHasher::rotl`: `(x << b) | (x >> (64 - b))` on `uint64_t`. -/
def rotl64 (x : Nat) (b : Nat) : Nat :=
  ((x <<< b) % M64) ||| (x >>> (64 - b))

/-! ## SipHash (embedded from `class SipHasher` in `crypto_hasher.cpp`) -/

structure SipState where
  v0 : Nat
  v1 : Nat
  v2 : Nat
  v3 : Nat

/-- `SipHasher::sipround`. -/
def sipround (s : SipState) : SipState :=
  let v0 := add64 s.v0 s.v1
  let v1 := rotl64 s.v1 13
  let v1 := xor64 v1 v0
  let v0 := rotl64 v0 32
  let v2 := add64 s.v2 s.v3
  let v3 := rotl64 s.v3 16
  let v3 := xor64 v3 v2
  let v0 := add64 v0 v3
  let v3 := rotl64 v3 21
  let v3 := xor64 v3 v0
  let v2 := add64 v2 v1
  let v1 := rotl64 v1 17
  let v1 := xor64 v1 v2
  let v2 := rotl64 v2 32
  ⟨v0, v1, v2, v3⟩

/-- A little-endian 64-bit word from up to eight bytes
(`m |= in[i] << (i * 8)`). -/
def leWord : List Nat → Nat
  | [] => 0
  | b :: bs => b + 256 * leWord bs

/-- One 8-byte message block: xor into `v3`, two siprounds, xor into
`v0`. -/
def sipBlock (s : SipState) (m : Nat) : SipState :=
  let s := { s with v3 := xor64 s.v3 m }
  let s := sipround (sipround s)
  { s with v0 := xor64 s.v0 m }

/-- The leading `len / 8` eight-byte blocks of the message. -/
def sipBlocks : List Nat → List (List Nat)
  | b0 :: b1 :: b2 :: b3 :: b4 :: b5 :: b6 :: b7 :: rest =>
    [b0, b1, b2, b3, b4, b5, b6, b7] :: sipBlocks rest
  | _ => []

/-- The trailing `len % 8` bytes of the message. -/
def sipTail : List Nat → List Nat
  | _ :: _ :: _ :: _ :: _ :: _ :: _ :: _ :: rest => sipTail rest
  | bs => bs

/-- `SipHasher::hash` on a byte sequence with keys `k0`, `k1`. -/
def sipHasherHash (bytes : List Nat) (k0 k1 : Nat) : Nat :=
  let s : SipState :=
    ⟨xor64 0x736f6d6570736575 k0, xor64 0x646f72616e646f6d k1,
     xor64 0x6c7967656e657261 k0, xor64 0x7465646279746573 k1⟩
  let s := (sipBlocks bytes).foldl (fun s blk => sipBlock s (leWord blk)) s
  let m := ((bytes.length % 256) <<< 56) ||| leWord (sipTail bytes)
  let s := sipBlock s m
  let s := sipround (sipround (sipround (sipround { s with v2 := xor64 s.v2 0xff })))
  xor64 (xor64 s.v0 s.v1) (xor64 s.v2 s.v3)

/-- The default test keys of `SipHasher::hash`. -/
def sipDefaultK0 : Nat := 0x0706050403020100
def sipDefaultK1 : Nat := 0x0f0e0d0c0b0a0908

/-- `SipHasher::hash` on a string with default keys. -/
def sipHasherHashStr (s : String) : Nat :=
  sipHasherHash (strBytes s) sipDefaultK0 sipDefaultK1

/-! ## SHA-256

Modelled from the spec: `CryptoHasher::sha256Hash` calls OpenSSL's
`SHA256`, which is not part of this repository; the spec says
"SHA-256: standard; digest is hex-encoded lower-case, then truncated to
`hash_length`".  The definitions below are the standard FIPS 180-4
SHA-256 over `Nat` with explicit reduction modulo `2 ^ 32`. -/

def M32 : Nat := 2 ^ 32

def rotr32 (x n : Nat) : Nat := (x >>> n) ||| ((x <<< (32 - n)) % M32)

def shaKq1 : List Nat :=
  [0x428a2f98, 0x71374491, 0xb5c0fbcf, 0xe9b5dba5, 0x3956c25b, 0x59f111f1,
   0x923f82a4, 0xab1c5ed5]

def shaKq2 : List Nat :=
  [0xd807aa98, 0x12835b01, 0x243185be, 0x550c7dc3, 0x72be5d74, 0x80deb1fe,
   0x9bdc06a7, 0xc19bf174]

def shaKq3 : List Nat :=
  [0xe49b69c1, 0xefbe4786, 0x0fc19dc6, 0x240ca1cc, 0x2de92c6f, 0x4a7484aa,
   0x5cb0a9dc, 0x76f988da]

def shaKq4 : List Nat :=
  [0x983e5152, 0xa831c66d, 0xb00327c8, 0xbf597fc7, 0xc6e00bf3, 0xd5a79147,
   0x06ca6351, 0x14292967]

def shaKq5 : List Nat :=
  [0x27b70a85, 0x2e1b2138, 0x4d2c6dfc, 0x53380d13, 0x650a7354, 0x766a0abb,
   0x81c2c92e, 0x92722c85]

def shaKq6 : List Nat :=
  [0xa2bfe8a1, 0xa81a664b, 0xc24b8b70, 0xc76c51a3, 0xd192e819, 0xd6990624,
   0xf40e3585, 0x106aa070]

def shaKq7 : List Nat :=
  [0x19a4c116, 0x1e376c08, 0x2748774c, 0x34b0bcb5, 0x391c0cb3, 0x4ed8aa4a,
   0x5b9cca4f, 0x682e6ff3]

def shaKq8 : List Nat :=
  [0x748f82ee, 0x78a5636f, 0x84c87814, 0x8cc70208, 0x90befffa, 0xa4506ceb,
   0xbef9a3f7, 0xc67178f2]

def shaK : List Nat :=
  shaKq1 ++ shaKq2 ++ shaKq3 ++ shaKq4 ++ shaKq5 ++ shaKq6 ++ shaKq7 ++ shaKq8

def shaH0 : List Nat :=
  [0x6a09e667, 0xbb67ae85, 0x3c6ef372, 0xa54ff53a,
   0x510e527f, 0x9b05688c, 0x1f83d9ab, 0x5be0cd19]

/-- The leading full `k`-byte chunks of a list (the inputs are always
padded to a whole number of chunks).  The structural fuel of the worker
is the list length, which dominates the chunk count for `0 < k`. -/
def chunksOfAux (k : Nat) : Nat → List Nat → List (List Nat)
  | 0, _ => []
  | fuel + 1, bs =>
    if 0 < k ∧ k ≤ bs.length then
      bs.take k :: chunksOfAux k fuel (bs.drop k)
    else []

def chunksOf (k : Nat) (bs : List Nat) : List (List Nat) :=
  chunksOfAux k bs.length bs

/-- A big-endian word from bytes. -/
def beWord (bs : List Nat) : Nat := bs.foldl (fun acc b => acc * 256 + b) 0

/-- `n` as `w` big-endian bytes. -/
def beBytes (w : Nat) (n : Nat) : List Nat :=
  (List.range w).map (fun i => (n >>> (8 * (w - 1 - i))) % 256)

/-- SHA-256 message padding: `0x80`, zeros to 56 mod 64, then the
bit length as eight big-endian bytes. -/
def sha256Pad (msg : List Nat) : List Nat :=
  msg ++ 0x80 :: List.replicate ((119 - msg.length % 64) % 64) 0
      ++ beBytes 8 ((msg.length * 8) % M64)

def sha256Sigma0 (x : Nat) : Nat := rotr32 x 7 ^^^ rotr32 x 18 ^^^ (x >>> 3)
def sha256Sigma1 (x : Nat) : Nat := rotr32 x 17 ^^^ rotr32 x 19 ^^^ (x >>> 10)
def sha256BigSigma0 (x : Nat) : Nat := rotr32 x 2 ^^^ rotr32 x 13 ^^^ rotr32 x 22
def sha256BigSigma1 (x : Nat) : Nat := rotr32 x 6 ^^^ rotr32 x 11 ^^^ rotr32 x 25

/-- The 64-entry message schedule from the sixteen words of one chunk. -/
def sha256Schedule (ws : List Nat) : List Nat :=
  (List.range 48).foldl
    (fun w _ =>
      let t := w.length
      w ++ [(sha256Sigma1 (w.getD (t - 2) 0) + w.getD (t - 7) 0 +
             sha256Sigma0 (w.getD (t - 15) 0) + w.getD (t - 16) 0) % M32])
    ws

/-- One round of the SHA-256 compression function; the state is the
eight working words `[a, b, c, d, e, f, g, h]`. -/
def sha256Round (st : List Nat) (kw : Nat × Nat) : List Nat :=
  match st with
  | [a, b, c, d, e, f, g, h] =>
    let t1 := (h + sha256BigSigma1 e + ((e &&& f) ^^^ ((M32 - 1 - e) &&& g)) +
               kw.1 + kw.2) % M32
    let t2 := (sha256BigSigma0 a + ((a &&& b) ^^^ (a &&& c) ^^^ (b &&& c))) % M32
    [(t1 + t2) % M32, a, b, c, (d + t1) % M32, e, f, g]
  | st => st

/-- One 64-byte chunk folded into the running hash words. -/
def sha256Chunk (hws : List Nat) (chunk : List Nat) : List Nat :=
  let ws := sha256Schedule ((chunksOf 4 chunk).map beWord)
  let st := ((ws.zip shaK).foldl sha256Round hws)
  (hws.zip st).map (fun p => (p.1 + p.2) % M32)

/-- The 32 digest bytes of SHA-256 over a byte message. -/
def sha256Bytes (msg : List Nat) : List Nat :=
  ((chunksOf 64 (sha256Pad msg)).foldl sha256Chunk shaH0).flatMap (beBytes 4)

/-! ## BLAKE2b-512

Modelled from the spec: `CryptoHasher::blake2bHash` calls OpenSSL's
`EVP_blake2b512`, which is not part of this repository; the spec says
"BLAKE2b: 512-bit state, hex-encoded and truncated".  The definitions
below are RFC 7693 BLAKE2b with a 64-byte unkeyed digest, over `Nat`
with explicit reduction modulo `2 ^ 64`. -/

def rotr64 (x n : Nat) : Nat := (x >>> n) ||| ((x <<< (64 - n)) % M64)

def blakeIV : List Nat :=
  [0x6a09e667f3bcc908, 0xbb67ae8584caa73b, 0x3c6ef372fe94f82b,
   0xa54ff53a5f1d36f1, 0x510e527fade682d1, 0x9b05688c2b3e6c1f,
   0x1f83d9abfb41bd6b, 0x5be0cd19137e2179]

def blakeSigma : List (List Nat) :=
  [[0, 1, 2, 3, 4, 5, 6, 7, 8, 9, 10, 11, 12, 13, 14, 15],
   [14, 10, 4, 8, 9, 15, 13, 6, 1, 12, 0, 2, 11, 7, 5, 3],
   [11, 8, 12, 0, 5, 2, 15, 13, 10, 14, 3, 6, 7, 1, 9, 4],
   [7, 9, 3, 1, 13, 12, 11, 14, 2, 6, 5, 10, 4, 0, 15, 8],
   [9, 0, 5, 7, 2, 4, 10, 15, 14, 1, 11, 12, 6, 8, 3, 13],
   [2, 12, 6, 10, 0, 11, 8, 3, 4, 13, 7, 5, 15, 14, 1, 9],
   [12, 5, 1, 15, 14, 13, 4, 10, 0, 7, 6, 3, 9, 2, 8, 11],
   [13, 11, 7, 14, 12, 1, 3, 9, 5, 0, 15, 4, 8, 6, 2, 10],
   [6, 15, 14, 9, 11, 3, 0, 8, 12, 2, 13, 7, 1, 4, 10, 5],
   [10, 2, 8, 4, 7, 6, 1, 5, 15, 11, 9, 14, 3, 12, 13, 0]]

/-- The BLAKE2b mixing function G on the sixteen-word work vector. -/
def blakeG (v : List Nat) (a b c d : Nat) (x y : Nat) : List Nat :=
  let va := (v.getD a 0 + v.getD b 0 + x) % M64
  let vd := rotr64 (v.getD d 0 ^^^ va) 32
  let vc := (v.getD c 0 + vd) % M64
  let vb := rotr64 (v.getD b 0 ^^^ vc) 24
  let va := (va + vb + y) % M64
  let vd := rotr64 (vd ^^^ va) 16
  let vc := (vc + vd) % M64
  let vb := rotr64 (vb ^^^ vc) 63
  ((((v.set a va).set b vb).set c vc).set d vd)

/-- One of the twelve BLAKE2b rounds. -/
def blakeRound (m : List Nat) (v : List Nat) (r : Nat) : List Nat :=
  let s := blakeSigma.getD (r % 10) []
  let mi := fun i => m.getD (s.getD i 0) 0
  let v := blakeG v 0 4 8 12 (mi 0) (mi 1)
  let v := blakeG v 1 5 9 13 (mi 2) (mi 3)
  let v := blakeG v 2 6 10 14 (mi 4) (mi 5)
  let v := blakeG v 3 7 11 15 (mi 6) (mi 7)
  let v := blakeG v 0 5 10 15 (mi 8) (mi 9)
  let v := blakeG v 1 6 11 12 (mi 10) (mi 11)
  let v := blakeG v 2 7 8 13 (mi 12) (mi 13)
  blakeG v 3 4 9 14 (mi 14) (mi 15)

/-- The BLAKE2b compression function: `h` the eight hash words, `m` the
sixteen message words, `t` the byte counter, `last` the final-block
flag. -/
def blakeCompress (h : List Nat) (m : List Nat) (t : Nat) (last : Bool) : List Nat :=
  let v := h ++ blakeIV
  let v := v.set 12 (v.getD 12 0 ^^^ (t % M64))
  let v := v.set 13 (v.getD 13 0 ^^^ (t / M64 % M64))
  let v := if last then v.set 14 (v.getD 14 0 ^^^ (M64 - 1)) else v
  let v := (List.range 12).foldl (blakeRound m) v
  (List.range 8).map (fun i => h.getD i 0 ^^^ v.getD i 0 ^^^ v.getD (i + 8) 0)

/-- A little-endian word from up to eight bytes, and back. -/
def leBytes (w : Nat) (n : Nat) : List Nat :=
  (List.range w).map (fun i => (n >>> (8 * i)) % 256)

/-- Zero-padding of the message to whole 128-byte blocks (one all-zero
block for the empty message). -/
def blake2bPad (msg : List Nat) : List Nat :=
  if msg = [] then List.replicate 128 0
  else msg ++ List.replicate ((128 - msg.length % 128) % 128) 0

/-- The initial hash words (parameter block: 64-byte digest, no key,
fanout 1, depth 1). -/
def blake2bH0 : List Nat :=
  blakeIV.set 0 (blakeIV.getD 0 0 ^^^ 0x01010040)

/-- One block folded in: the final block carries the total byte count
and the final flag; earlier blocks the running counter. -/
def blake2bStep (msg : List Nat) (blocks : List (List Nat))
    (h : List Nat) (i : Nat) : List Nat :=
  let m := (chunksOf 8 (blocks.getD i [])).map leWord
  if i = blocks.length - 1 then blakeCompress h m msg.length true
  else blakeCompress h m (128 * (i + 1)) false

/-- The 64 digest bytes of unkeyed BLAKE2b-512 over a byte message. -/
def blake2b512Bytes (msg : List Nat) : List Nat :=
  ((List.range (chunksOf 128 (blake2bPad msg)).length).foldl
    (blake2bStep msg (chunksOf 128 (blake2bPad msg)))
    blake2bH0).flatMap (leBytes 8)

/-! ## CryptoHasher (embedded from `crypto_hasher.h` / `crypto_hasher.cpp`) -/

inductive HashAlgorithm
  | SHA256
  | BLAKE2B
  | SIPHASH
deriving DecidableEq

/-- `static_cast<int>` on `HashAlgorithm`. -/
def HashAlgorithm.toInt : HashAlgorithm → Int
  | .SHA256 => 0
  | .BLAKE2B => 1
  | .SIPHASH => 2

inductive PrefixStyle
  | NONE
  | TYPED
  | UNDERSCORE
deriving DecidableEq

structure HashConfig where
  algorithm : HashAlgorithm := .SHA256
  prefix_style : PrefixStyle := .TYPED
  hash_length : Nat := 12
  global_salt : String := ""
  deterministic : Bool := true
deriving DecidableEq

/-- `CryptoHasher::sha256Hash`: hex-encode the 32-byte digest. -/
def sha256Hash (input : String) : String :=
  hexEncode (sha256Bytes (strBytes input))

/-- `CryptoHasher::blake2bHash`: hex-encode the 64-byte
`EVP_blake2b512` digest (the `output_len` parameter is passed but never
used by the source, which always hashes at width 512). -/
def blake2bHash (input : String) (_output_len : Nat) : String :=
  hexEncode (blake2b512Bytes (strBytes input))

/-- `CryptoHasher::sipHash`: keys derived by self-hashing the salt when
it is non-empty, then a 16-character zero-padded lower-case hex of the
64-bit result. -/
def sipHash (salt : String) (input : String) : String :=
  let k0 := if salt = "" then sipDefaultK0 else sipHasherHashStr (salt ++ "k0")
  let k1 := if salt = "" then sipDefaultK1 else sipHasherHashStr (salt ++ "k1")
  ⟨hexPad 16 (sipHasherHash (strBytes input) k0 k1)⟩

/-- `CryptoHasher::truncateHash`. -/
def truncateHash (full_hash : String) (length : Nat) : String :=
  if full_hash.length ≤ length then full_hash
  else ⟨full_hash.data.take length⟩

/-- `CryptoHasher::generateHash`: `global_salt ‖ context_salt ‖ name`
through the selected primitive, truncated to `hash_length`. -/
def generateHash (cfg : HashConfig) (original_name : String)
    (context_salt : String) : String :=
  let input := cfg.global_salt ++ context_salt ++ original_name
  let hash :=
    match cfg.algorithm with
    | .SHA256 => sha256Hash input
    | .BLAKE2B => blake2bHash input cfg.hash_length
    | .SIPHASH => sipHash cfg.global_salt input
  truncateHash hash cfg.hash_length

/-- `CryptoHasher::applyPrefix`. -/
def applyPrefix (cfg : HashConfig) (hash : String) (pre : String) : String :=
  if pre ≠ "" then pre ++ hash
  else if cfg.prefix_style = .UNDERSCORE then "_" ++ hash
  else if cfg.prefix_style = .NONE then
    match hash.data with
    | c :: _ => if isDigitChar c then "s_" ++ hash else hash
    | [] => hash
  else hash

/-- The mutable state of one `CryptoHasher` instance: its configuration
and the instance-level `used_hashes_` set. -/
structure Hasher where
  config : HashConfig
  used_hashes : List String := []
deriving DecidableEq

/-- The candidate sequence tried by `CryptoHasher::generateUniqueHash`:
the primary prefixed hash first, then the prefixed hash of
`name ‖ "_" ‖ counter` for `counter = 0, 1, …`. -/
def uniqueCand (cfg : HashConfig) (name pre : String) : Nat → String
  | 0 => applyPrefix cfg (generateHash cfg name "") pre
  | k + 1 => applyPrefix cfg (generateHash cfg (name ++ "_" ++ toString k) "") pre

/-- The collision loop of `CryptoHasher::generateUniqueHash`.  The fuel
only serves Lean's termination checker; the source's own counter check
(`counter > 10000`) always fires before the fuel at the call below runs
out.  (The source computes the re-hash into a local before testing the
counter; hashing has no side effect, so the embedding inlines it into
the recursive call.) -/
def uniqueLoop (h : Hasher) (name : String) (used : List String)
    (pre : String) (full_name : String) (counter : Nat) :
    Nat → Except String String
  | 0 => .error "fuel"
  | fuel + 1 =>
    if full_name ∈ used ∨ full_name ∈ h.used_hashes then
      if counter + 1 > 10000 then
        .error ("Too many hash collisions for: " ++ name)
      else
        uniqueLoop h name used pre
          (applyPrefix h.config
            (generateHash h.config (name ++ "_" ++ toString counter) "") pre)
          (counter + 1) fuel
    else .ok full_name

/-- `CryptoHasher::generateUniqueHash`: the returned name is inserted
both into the caller's set and into the instance set. -/
def generateUniqueHash (h : Hasher) (name : String) (used : List String)
    (pre : String) : Except String (String × Hasher × List String) :=
  match uniqueLoop h name used pre (uniqueCand h.config name pre 0) 0 10002 with
  | .error e => .error e
  | .ok f => .ok (f, { h with used_hashes := f :: h.used_hashes }, f :: used)

/-- `CryptoHasher::hashFunction` (fresh temporary set, `f_` under the
typed style). -/
def hashFunction (h : Hasher) (name : String) :
    Except String (String × Hasher × List String) :=
  generateUniqueHash h name []
    (if h.config.prefix_style = .TYPED then "f_" else "")

/-- `CryptoHasher::hashVariable`. -/
def hashVariable (h : Hasher) (name : String) :
    Except String (String × Hasher × List String) :=
  generateUniqueHash h name []
    (if h.config.prefix_style = .TYPED then "v_" else "")

/-- `CryptoHasher::hashClass`. -/
def hashClass (h : Hasher) (name : String) :
    Except String (String × Hasher × List String) :=
  generateUniqueHash h name []
    (if h.config.prefix_style = .TYPED then "C_" else "")

/-- `CryptoHasher::hashNamespace`. -/
def hashNamespace (h : Hasher) (name : String) :
    Except String (String × Hasher × List String) :=
  generateUniqueHash h name []
    (if h.config.prefix_style = .TYPED then "N_" else "")

/-! ## Mangled-name codec (embedded from `cpp_mangler.h` / `cpp_mangler.cpp`) -/

/-- `struct CppSymbolComponents` (the fields the parser and
reconstructor touch; the C++ field `prefix` is spelled `pfx` here
because Lean reserves that word). -/
structure CppSymbolComponents where
  is_mangled : Bool := false
  pfx : String := ""
  has_namespace : Bool := false
  namespace_name : String := ""
  has_class : Bool := false
  class_name : String := ""
  method_name : String := ""
  template_params : List String := []
  parameter_types : List String := []
  is_vtable : Bool := false
  is_typeinfo : Bool := false
  is_typeinfo_name : Bool := false
deriving DecidableEq

/-- `CppDemangler::demangle` defers to the host ABI demangler
`abi::__cxa_demangle`, which is not part of this repository, and
returns the original name when demangling fails.  Modelled from the
spec: `demangleModel` is the environment in which the host demangler is
unavailable (every call fails), so the input is returned unchanged.
Codec theorems quantify over the demangler wherever the property does
not depend on it. -/
def demangleModel (mangled_name : String) : String := mangled_name

/-- `substr(0, n) == pre` comparisons, as a kernel-evaluable prefix
test on the character data. -/
def strStartsWith (s pre : String) : Bool :=
  pre.data.isPrefixOf s.data

/-- `CppDemangler::isCppMangled`. -/
def isCppMangled (name : String) : Bool :=
  name.length > 2 && strStartsWith name "_Z"

/-- `CppDemangler::isSpecialSymbol`. -/
def isSpecialSymbol (name : String) : Bool :=
  if name.length < 4 then false
  else strStartsWith name "_ZTV" || strStartsWith name "_ZTI" ||
    strStartsWith name "_ZTS"

/-- The decimal-length loop shared by `CppDemangler::parse` and
`CppMangler::obfuscateVTable`: read digits, accumulating
`len = len * 10 + (c - '0')`, and return the remainder. -/
def readLen (acc : Nat) : List Char → Nat × List Char
  | [] => (acc, [])
  | c :: cs =>
    if isDigitChar c then readLen (acc * 10 + (c.toNat - '0'.toNat)) cs
    else (acc, c :: cs)

theorem readLen_length_le (acc : Nat) (cs : List Char) :
    (readLen acc cs).2.length ≤ cs.length := by
  induction cs generalizing acc with
  | nil => simp [readLen]
  | cons c cs ih =>
    simp only [readLen]
    split
    · exact Nat.le_trans (ih _) (by simp)
    · simp

/-- The three-way component assignment inside the `N…E` loop of
`CppDemangler::parse`: the first component (empty `namespace_name`)
becomes the namespace, the second the class, later ones overwrite
`method_name`. -/
def assignComponent (comps : CppSymbolComponents) (component : String) :
    CppSymbolComponents :=
  if comps.namespace_name = "" then
    { comps with namespace_name := component }
  else if ¬ comps.has_class then
    { comps with class_name := component, has_class := true }
  else
    { comps with method_name := component }

/-- The component loop inside `N…E` of `CppDemangler::parse`: length
prefixed tokens until `E`.  The structural fuel of the worker is the
remaining length: every iteration that recurses consumes at least the
one digit character it read, so the fuel of `parseNested` below never
runs out. -/
def parseNestedAux : Nat → CppSymbolComponents → List Char →
    CppSymbolComponents
  | _, comps, [] => comps
  | 0, comps, _ :: _ => comps
  | fuel + 1, comps, c :: cs =>
    if c = 'E' then comps
    else
      if 0 < (readLen 0 (c :: cs)).1 ∧
          (readLen 0 (c :: cs)).1 ≤ (readLen 0 (c :: cs)).2.length then
        parseNestedAux fuel
          (assignComponent comps
            ⟨(readLen 0 (c :: cs)).2.take (readLen 0 (c :: cs)).1⟩)
          ((readLen 0 (c :: cs)).2.drop (readLen 0 (c :: cs)).1)
      else comps

def parseNested (comps : CppSymbolComponents) (rest : List Char) :
    CppSymbolComponents :=
  parseNestedAux rest.length comps rest

/-- `CppDemangler::parse`. -/
def parse (demangle : String → String) (mangled_name : String) :
    CppSymbolComponents :=
  if ¬ isCppMangled mangled_name then { is_mangled := false }
  else
    let comps : CppSymbolComponents := { is_mangled := true, pfx := "_Z" }
    if strStartsWith mangled_name "_ZTV" then { comps with is_vtable := true }
    else if strStartsWith mangled_name "_ZTI" then
      { comps with is_typeinfo := true }
    else if strStartsWith mangled_name "_ZTS" then
      { comps with is_typeinfo_name := true }
    else
      let comps := { comps with method_name := demangle mangled_name }
      match mangled_name.data.drop 2 with
      | 'N' :: rest => parseNested { comps with has_namespace := true } rest
      | _ => comps

/-- The mutable state of one `CppMangler` instance: the memoized
whole-name mapping and the three per-kind component caches. -/
structure Mangler where
  mapping : List (String × String) := []
  namespace_cache : List (String × String) := []
  class_cache : List (String × String) := []
  method_cache : List (String × String) := []

/-- `CppMangler::encodeLengthPrefix`. -/
def encodeLengthPrefix (name : String) : String :=
  toString name.length ++ name

/-- `CppMangler::encodeParameters`: concatenate the retained parameter
encodings, or `v` when there are none. -/
def encodeParameters (params : List String) : String :=
  let result := String.join params
  if result = "" then "v" else result

/-- `CppMangler::obfuscateNamespace` (cached; `N` plus the first eight
characters of the `"ns"`-salted hash). -/
def obfuscateNamespace (cfg : HashConfig) (m : Mangler) (ns : String) :
    String × Mangler :=
  match m.namespace_cache.lookup ns with
  | some v => (v, m)
  | none =>
    let obf := "N" ++ ⟨(generateHash cfg ns "ns").data.take 8⟩
    (obf, { m with namespace_cache := (ns, obf) :: m.namespace_cache })

/-- `CppMangler::obfuscateClassName` (cached; `C` plus the first ten
characters of the `"class"`-salted hash). -/
def obfuscateClassName (cfg : HashConfig) (m : Mangler) (class_name : String) :
    String × Mangler :=
  match m.class_cache.lookup class_name with
  | some v => (v, m)
  | none =>
    let obf := "C" ++ ⟨(generateHash cfg class_name "class").data.take 10⟩
    (obf, { m with class_cache := (class_name, obf) :: m.class_cache })

/-- `CppMangler::obfuscateMethodName` (cached; `M` plus the first ten
characters of the `"method"`-salted hash). -/
def obfuscateMethodName (cfg : HashConfig) (m : Mangler) (method_name : String) :
    String × Mangler :=
  match m.method_cache.lookup method_name with
  | some v => (v, m)
  | none =>
    let obf := "M" ++ ⟨(generateHash cfg method_name "method").data.take 10⟩
    (obf, { m with method_cache := (method_name, obf) :: m.method_cache })

/-- `CppMangler::reconstructMangled`. -/
def reconstructMangled (cfg : HashConfig) (m : Mangler)
    (comps : CppSymbolComponents) : String × Mangler :=
  if comps.has_namespace || comps.has_class then
    let (nsPart, m) :=
      if comps.has_namespace && comps.namespace_name ≠ "" then
        let (obf_ns, m) := obfuscateNamespace cfg m comps.namespace_name
        (encodeLengthPrefix obf_ns, m)
      else ("", m)
    let (classPart, m) :=
      if comps.has_class && comps.class_name ≠ "" then
        let (obf_class, m) := obfuscateClassName cfg m comps.class_name
        (encodeLengthPrefix obf_class, m)
      else ("", m)
    let (methodPart, m) :=
      if comps.method_name ≠ "" then
        let (obf_method, m) := obfuscateMethodName cfg m comps.method_name
        (encodeLengthPrefix obf_method, m)
      else ("", m)
    ("_ZN" ++ nsPart ++ classPart ++ methodPart ++ "E" ++
       encodeParameters comps.parameter_types, m)
  else
    let obf_name := generateHash cfg comps.method_name ""
    ("_Z" ++ encodeLengthPrefix obf_name ++
       encodeParameters comps.parameter_types, m)

/-- `CppMangler::obfuscateVTable`. -/
def obfuscateVTable (cfg : HashConfig) (m : Mangler) (vtable_symbol : String) :
    String × Mangler :=
  match m.mapping.lookup vtable_symbol with
  | some v => (v, m)
  | none =>
    let rest := vtable_symbol.data.drop 4
    let lr := readLen 0 rest
    if 0 < lr.1 ∧ lr.1 ≤ lr.2.length then
      let class_name : String := ⟨lr.2.take lr.1⟩
      let (obfuscated_class, m) := obfuscateClassName cfg m class_name
      let result := "_ZTV" ++ encodeLengthPrefix obfuscated_class
      (result, { m with mapping := (vtable_symbol, result) :: m.mapping })
    else
      let obfuscated := "_ZTV" ++ generateHash cfg vtable_symbol "vtable"
      (obfuscated, { m with mapping := (vtable_symbol, obfuscated) :: m.mapping })

/-- `CppMangler::obfuscateTypeInfo` (also used for typeinfo names). -/
def obfuscateTypeInfo (cfg : HashConfig) (m : Mangler)
    (typeinfo_symbol : String) : String × Mangler :=
  match m.mapping.lookup typeinfo_symbol with
  | some v => (v, m)
  | none =>
    let pre : String := ⟨typeinfo_symbol.data.take 4⟩
    let hash := generateHash cfg typeinfo_symbol "typeinfo"
    let obfuscated := pre ++ ⟨hash.data.take 10⟩
    (obfuscated, { m with mapping := (typeinfo_symbol, obfuscated) :: m.mapping })

/-- `CppMangler::obfuscateCppSymbol`. -/
def obfuscateCppSymbol (demangle : String → String) (cfg : HashConfig)
    (m : Mangler) (mangled_name : String) : String × Mangler :=
  match m.mapping.lookup mangled_name with
  | some v => (v, m)
  | none =>
    let comps := parse demangle mangled_name
    if ¬ comps.is_mangled then (mangled_name, m)
    else if comps.is_vtable then obfuscateVTable cfg m mangled_name
    else if comps.is_typeinfo then obfuscateTypeInfo cfg m mangled_name
    else if comps.is_typeinfo_name then obfuscateTypeInfo cfg m mangled_name
    else
      let (obfuscated, m) := reconstructMangled cfg m comps
      (obfuscated, { m with mapping := (mangled_name, obfuscated) :: m.mapping })

/-! ## C symbol obfuscator (embedded from `c_obfuscator.h` /
`c_obfuscator.cpp` and the CLI driver `tools/symbol-obfuscate.cpp`) -/

inductive SymbolType
  | FUNCTION
  | GLOBAL_VAR
  | STATIC_VAR
  | LOCAL_VAR
  | TYPEDEF
  | STRUCT
  | ENUM
  | UNKNOWN
deriving DecidableEq

/-- `static_cast<int>` on `SymbolType`. -/
def SymbolType.toInt : SymbolType → Int
  | .FUNCTION => 0
  | .GLOBAL_VAR => 1
  | .STATIC_VAR => 2
  | .LOCAL_VAR => 3
  | .TYPEDEF => 4
  | .STRUCT => 5
  | .ENUM => 6
  | .UNKNOWN => 7

/-- `static_cast<SymbolType>` on an `int`.  C++ leaves a value outside
`0..7` unrepresented; the mapping store only ever casts back values it
wrote itself, so the catch-all arm is never exercised by the embedded
code. -/
def SymbolType.ofInt : Int → SymbolType
  | 0 => .FUNCTION
  | 1 => .GLOBAL_VAR
  | 2 => .STATIC_VAR
  | 3 => .LOCAL_VAR
  | 4 => .TYPEDEF
  | 5 => .STRUCT
  | 6 => .ENUM
  | _ => .UNKNOWN

inductive Linkage
  | EXTERNAL
  | INTERNAL
  | WEAK
  | COMMON
deriving DecidableEq

def Linkage.toInt : Linkage → Int
  | .EXTERNAL => 0
  | .INTERNAL => 1
  | .WEAK => 2
  | .COMMON => 3

def Linkage.ofInt : Int → Linkage
  | 0 => .EXTERNAL
  | 1 => .INTERNAL
  | 2 => .WEAK
  | _ => .COMMON

/-- `struct SymbolMapping`. -/
structure SymbolMapping where
  original_name : String := ""
  obfuscated_name : String := ""
  type : SymbolType := .UNKNOWN
  linkage : Linkage := .EXTERNAL
  address : Nat := 0
  size : Nat := 0
  source_file : String := ""
  line_number : Int := 0
deriving DecidableEq

/-- The default `preserve_symbols` set of `ObfuscationConfig`. -/
def defaultPreserveSymbols : List String :=
  ["main", "_start", "__libc_start_main", "signal", "sigaction",
   "_init", "_fini", "__attribute__"]

/-- The default `preserve_patterns` of `ObfuscationConfig`. -/
def defaultPreservePatterns : List String :=
  ["^__", "^_Z", "^llvm\\.", "^__cxa_"]

/-- `struct ObfuscationConfig`. -/
structure ObfuscationConfig where
  preserve_symbols : List String := defaultPreserveSymbols
  preserve_patterns : List String := defaultPreservePatterns
  aggressive_static : Bool := true
  obfuscate_strings : Bool := false
  generate_map : Bool := true
  map_file_path : String := "symbol_map.json"
  hash_config : HashConfig := {}
deriving DecidableEq

/-- The static `cpp_keywords` set of `CSymbolObfuscator::shouldPreserve`
(note that it contains `"main"` unconditionally). -/
def cppKeywords : List String :=
  ["if", "else", "for", "while", "do", "switch", "case", "default",
   "break", "continue", "return", "goto",
   "int", "char", "float", "double", "void", "long", "short", "signed",
   "unsigned",
   "const", "static", "extern", "register", "volatile", "auto",
   "struct", "union", "enum", "typedef",
   "sizeof", "typeof",
   "class", "public", "private", "protected", "virtual", "friend",
   "namespace", "using", "template", "typename",
   "new", "delete", "this", "operator",
   "try", "catch", "throw",
   "true", "false", "nullptr", "NULL",
   "and", "or", "not", "xor",
   "main"]

/-- Strip regex escapes (`"\\."` stands for a literal dot). -/
def unescapeRegex : List Char → List Char
  | [] => []
  | '\\' :: c :: cs => c :: unescapeRegex cs
  | c :: cs => c :: unescapeRegex cs

/-- Modelled from the spec: `matchesPreservePattern` runs
`std::regex_search`, an external library facility.  The repository only
ever supplies anchored literal patterns (`"^__"`, `"^_Z"`,
`"^llvm\\."`, `"^__cxa_"`), on which `regex_search` is exactly a prefix
test; an unanchored literal pattern would be a substring test. -/
def regexSearchModel (pattern : String) (s : String) : Bool :=
  match pattern.data with
  | '^' :: rest => (unescapeRegex rest).isPrefixOf s.data
  | lit => decide ((unescapeRegex lit) <:+: s.data)

/-- `CSymbolObfuscator::matchesPreservePattern`. -/
def matchesPreservePattern (cfg : ObfuscationConfig) (symbol_name : String) :
    Bool :=
  cfg.preserve_patterns.any (fun p => regexSearchModel p symbol_name)

/-- `CSymbolObfuscator::shouldPreserve`. -/
def shouldPreserve (cfg : ObfuscationConfig) (symbol_name : String) : Bool :=
  if symbol_name ∈ cppKeywords then true
  else if symbol_name ∈ cfg.preserve_symbols then true
  else if matchesPreservePattern cfg symbol_name then true
  else false

/-- The state of one `CSymbolObfuscator` instance. -/
structure CObfuscator where
  config : ObfuscationConfig
  hasher : Hasher
  mappings : List SymbolMapping := []
  used_names : List String := []
deriving DecidableEq

/-- The `CSymbolObfuscator` constructor: the hasher is built from the
configuration's hash settings. -/
def mkCObfuscator (config : ObfuscationConfig) : CObfuscator :=
  { config := config, hasher := { config := config.hash_config } }

/-- `std::map` assignment `mapping[original] = obfuscated`. -/
def mapUpdate (l : List (String × String)) (k v : String) :
    List (String × String) :=
  if l.any (fun p => p.1 = k) then
    l.map (fun p => if p.1 = k then (k, v) else p)
  else l ++ [(k, v)]

/-- The per-symbol body of `CSymbolObfuscator::generateMapping`: route
by symbol type to the typed hash entry. -/
def hashForSymbol (h : Hasher) (sym : SymbolMapping) :
    Except String (String × Hasher × List String) :=
  match sym.type with
  | .FUNCTION => hashFunction h sym.original_name
  | .GLOBAL_VAR => hashVariable h sym.original_name
  | .STATIC_VAR => hashVariable h sym.original_name
  | .STRUCT => hashClass h sym.original_name
  | _ => hashVariable h sym.original_name

/-- The loop of `CSymbolObfuscator::generateMapping`; a hasher failure
(`CollisionExhausted`) propagates as the C++ exception does. -/
def generateMappingAux (ob : CObfuscator) (acc : List (String × String)) :
    List SymbolMapping → Except String (List (String × String) × CObfuscator)
  | [] => .ok (acc, ob)
  | sym :: rest =>
    if shouldPreserve ob.config sym.original_name then
      generateMappingAux ob acc rest
    else
      match hashForSymbol ob.hasher sym with
      | .error e => .error e
      | .ok (obfuscated, h', _) =>
        generateMappingAux
          { ob with
              hasher := h'
              used_names := obfuscated :: ob.used_names
              mappings := ob.mappings ++ [{ sym with obfuscated_name := obfuscated }] }
          (mapUpdate acc sym.original_name obfuscated) rest

/-- `CSymbolObfuscator::generateMapping`. -/
def generateMapping (ob : CObfuscator) (symbols : List SymbolMapping) :
    Except String (List (String × String) × CObfuscator) :=
  generateMappingAux ob [] symbols

/-! ### Text rewriter (`replaceSymbol`, `isWholeWord`,
`applyObfuscation`), embedded over `List Char` -/

/-- Split a text at the first occurrence of `word`
(`code.find(word, pos)`): `some (before, after)` with
`text = before ++ word ++ after` and no earlier occurrence. -/
def splitOcc (word : List Char) : List Char → Option (List Char × List Char)
  | [] => if word = [] then some ([], []) else none
  | c :: t =>
    if word.isPrefixOf (c :: t) then some ([], (c :: t).drop word.length)
    else (splitOcc word t).map (fun p => (c :: p.1, p.2))

theorem splitOcc_eq (word : List Char) (text before after : List Char)
    (h : splitOcc word text = some (before, after)) :
    text = before ++ word ++ after := by
  induction text generalizing before with
  | nil =>
    simp only [splitOcc] at h
    split at h
    · next hw =>
      simp only [Option.some.injEq, Prod.mk.injEq] at h
      subst hw
      rw [← h.1, ← h.2]
      rfl
    · exact Option.noConfusion h
  | cons c t ih =>
    rw [splitOcc] at h
    split at h
    · next hp =>
      simp only [Option.some.injEq, Prod.mk.injEq] at h
      obtain ⟨h1, h2⟩ := h
      subst h1
      obtain ⟨u, hu⟩ := List.isPrefixOf_iff_prefix.mp hp
      rw [← h2, ← hu, List.drop_left]
      rfl
    · next hp =>
      cases hs : splitOcc word t with
      | none => rw [hs] at h; simp at h
      | some p =>
        obtain ⟨b, a⟩ := p
        rw [hs] at h
        simp only [Option.map_some, Option.map_some', Option.some.injEq, Prod.mk.injEq] at h
        obtain ⟨h1, h2⟩ := h
        subst h1
        subst h2
        have ht := ih b hs
        simp [ht]

/-- The boundary test of `CSymbolObfuscator::isWholeWord` on one side:
a text edge (`none`) is not an identifier character. -/
def isIdentOpt : Option Char → Bool
  | none => false
  | some c => isIdentChar c

/-- The character standing just before the scan cursor after emitting
`emitted`, when `prev` stood before it. -/
def lastPrev (emitted : List Char) (prev : Option Char) : Option Char :=
  match emitted.getLast? with
  | some c => some c
  | none => prev

/-- `CSymbolObfuscator::replaceSymbol`: scan from the cursor for the
next occurrence; replace it when `isWholeWord` holds and resume just
past the inserted text, otherwise step past the occurrence.  `prev` is
the character just before the cursor (`text[pos-1]`), `todo` the text
from the cursor on.  The C++ loop never terminates on an empty
`original` (the cursor stops advancing); the embedding returns the text
unchanged in that unreachable case, and every theorem below assumes the
original name non-empty. -/
def replaceSymbolAux (original obfuscated : List Char) (prev : Option Char)
    (todo : List Char) : List Char :=
  if ho : original = [] then todo
  else
    match hs : splitOcc original todo with
    | none => todo
    | some (before, after) =>
      let boundaryBefore := lastPrev before prev
      if ¬ isIdentOpt boundaryBefore ∧ ¬ isIdentOpt after.head? then
        before ++ obfuscated ++
          replaceSymbolAux original obfuscated
            (lastPrev obfuscated boundaryBefore) after
      else
        before ++ original ++
          replaceSymbolAux original obfuscated original.getLast? after
termination_by todo.length
decreasing_by
  all_goals
    have hT := splitOcc_eq original todo before after hs
    subst hT
    cases original with
    | nil => exact absurd rfl ho
    | cons c cs =>
      simp only [List.length_append, List.length_cons]
      omega

/-- `CSymbolObfuscator::replaceSymbol` over a whole text. -/
def replaceSymbol (code : List Char) (original obfuscated : List Char) :
    List Char :=
  replaceSymbolAux original obfuscated none code

/-- The length-descending comparison `a.first.length() > b.first.length()`
given to `std::sort` by `applyObfuscation`, as a total preorder. -/
def lenGE (a b : List Char × List Char) : Prop := b.1.length ≤ a.1.length

instance : DecidableRel lenGE := fun a b => Nat.decLe b.1.length a.1.length

instance : IsTotal (List Char × List Char) lenGE :=
  ⟨fun a b => Nat.le_total b.1.length a.1.length⟩

instance : IsTrans (List Char × List Char) lenGE :=
  ⟨fun _ _ _ h1 h2 => Nat.le_trans h2 h1⟩

/-- The `std::sort` call of `CSymbolObfuscator::applyObfuscation`:
sort the mapping pairs by descending original length (`std::sort` is
free to order equal lengths arbitrarily; merge sort is one such
order). -/
def sortedMapping (mapping : List (List Char × List Char)) :
    List (List Char × List Char) :=
  mapping.mergeSort (fun a b => decide (lenGE a b))

/-- `CSymbolObfuscator::applyObfuscation`: substitute every mapped
pair, longest originals first. -/
def applyObfuscation (source_code : List Char)
    (mapping : List (List Char × List Char)) : List Char :=
  (sortedMapping mapping).foldl
    (fun code p => replaceSymbol code p.1 p.2) source_code

/-! ### Mapping store (embedded from `CSymbolObfuscator::exportMapping`
/ `importMapping` and `SymbolObfuscationPass::saveMapping`)

The JSON text layer (`jsoncpp`, LLVM `json`) is external to the
repository; the store is embedded at the level of structured JSON
values, which is what both serializers build and what the deserializer
walks. -/

inductive Json where
  | null
  | str (s : String)
  | int (n : Int)
  | uint (n : Nat)
  | arr (xs : List Json)
  | obj (fields : List (String × Json))

/-- `root["key"]` read access: the member, or null when absent. -/
def Json.getMember (j : Json) (key : String) : Json :=
  match j with
  | .obj fields => (fields.lookup key).getD .null
  | _ => .null

def Json.asString : Json → String
  | .str s => s
  | _ => ""

def Json.asInt : Json → Int
  | .int n => n
  | .uint n => n
  | _ => 0

def Json.asUInt64 : Json → Nat
  | .uint n => n
  | .int n => n.toNat
  | _ => 0

/-- The top-level keys of a JSON object, in assignment order. -/
def Json.topKeys : Json → List String
  | .obj fields => fields.map (fun p => p.1)
  | _ => []

/-- One `symbols` entry as `CSymbolObfuscator::exportMapping` builds
it. -/
def exportSymbolJson (mp : SymbolMapping) : Json :=
  .obj [("original", .str mp.original_name),
        ("obfuscated", .str mp.obfuscated_name),
        ("type", .int mp.type.toInt),
        ("linkage", .int mp.linkage.toInt),
        ("address", .uint mp.address),
        ("size", .uint mp.size),
        ("source_file", .str mp.source_file),
        ("line", .int mp.line_number)]

/-- The document `CSymbolObfuscator::exportMapping` writes: `symbols`,
`version` and `hash_algorithm` (and nothing else) at top level. -/
def exportMappingJson (mappings : List SymbolMapping)
    (algorithm : HashAlgorithm) : Json :=
  .obj [("symbols", .arr (mappings.map exportSymbolJson)),
        ("version", .str "1.0"),
        ("hash_algorithm", .int algorithm.toInt)]

/-- One `symbols` entry as `CSymbolObfuscator::importMapping` reads
it. -/
def importSymbolJson (j : Json) : SymbolMapping :=
  { original_name := (j.getMember "original").asString
    obfuscated_name := (j.getMember "obfuscated").asString
    type := SymbolType.ofInt (j.getMember "type").asInt
    linkage := Linkage.ofInt (j.getMember "linkage").asInt
    address := (j.getMember "address").asUInt64
    size := (j.getMember "size").asUInt64
    source_file := (j.getMember "source_file").asString
    line_number := (j.getMember "line").asInt }

/-- `CSymbolObfuscator::importMapping` over a parsed document: clear
the store and read every `symbols` entry back. -/
def importMappingJson (root : Json) : List SymbolMapping :=
  match root.getMember "symbols" with
  | .arr xs => xs.map importSymbolJson
  | _ => []

/-- The document `SymbolObfuscationPass::saveMapping` writes:
`symbols` (entries holding only `original` and `obfuscated`),
`version` and `salt` (and nothing else) at top level. -/
def saveMappingJson (mapping : List (String × String)) (salt : String) :
    Json :=
  .obj [("symbols",
         .arr (mapping.map (fun p =>
           .obj [("original", .str p.1), ("obfuscated", .str p.2)]))),
        ("version", .str "1.0"),
        ("salt", .str salt)]

/-! ## Spec-side definitions

These transcribe the specification's wording (regex shapes, identifier
classes) and are compared with the embedded code; they are not part of
the embedding. -/

/-- The sixteen lower-case hexadecimal characters. -/
def hexCharsDigits : List Char :=
  ['0', '1', '2', '3', '4', '5', '6', '7', '8', '9']

def hexCharsLetters : List Char := ['a', 'b', 'c', 'd', 'e', 'f']

def hexChars : List Char := hexCharsDigits ++ hexCharsLetters

def isLowerHexChar (c : Char) : Bool := c ∈ hexChars

/-- The spec's identifier-start class `[A-Za-z_]`. -/
def validIdentStart (c : Char) : Bool :=
  ('A' ≤ c && c ≤ 'Z') || ('a' ≤ c && c ≤ 'z') || c = '_'

/-- The spec's identifier-continuation class `[A-Za-z0-9_]`. -/
def validIdentCont (c : Char) : Bool :=
  ('A' ≤ c && c ≤ 'Z') || ('a' ≤ c && c ≤ 'z') || isDigitChar c || c = '_'

/-- The spec's "valid C identifier" regex `[A-Za-z_][A-Za-z0-9_]*` over
a character list. -/
def validIdentList : List Char → Bool
  | [] => false
  | c :: cs => validIdentStart c && cs.all validIdentCont

/-- The spec's "valid C identifier" regex on a string. -/
def isValidCIdent (s : String) : Bool := validIdentList s.data

/-- The claimed S4 result shape
`^_ZN[0-9]+C[0-9a-f]{10}[0-9]+M[0-9a-f]{10}Ev$` (the digit runs are
greedy; a digit run can only stop at the non-digit `C`/`M`, so this
deterministic matcher is the regex). -/
def claimedS4Shape (s : String) : Bool :=
  match s.data with
  | '_' :: 'Z' :: 'N' :: rest =>
    let d1 := rest.takeWhile isDigitChar
    let r1 := rest.dropWhile isDigitChar
    match r1 with
    | 'C' :: r2 =>
      let h1 := r2.take 10
      let r3 := r2.drop 10
      let d2 := r3.takeWhile isDigitChar
      let r4 := r3.dropWhile isDigitChar
      match r4 with
      | 'M' :: r5 =>
        !d1.isEmpty && h1.length == 10 && h1.all isLowerHexChar &&
        !d2.isEmpty && (r5.take 10).length == 10 &&
        (r5.take 10).all isLowerHexChar &&
        r5.drop 10 == ['E', 'v']
      | _ => false
    | _ => false
  | _ => false

/-- The result shape the code actually produces on the S4 inputs:
`^_ZN[0-9]+N[0-9a-f]{8}[0-9]+M[0-9a-f]{10}Ev$` — a namespace token
(`N` + 8 hex) followed by a method token (`M` + 10 hex), with no class
token. -/
def amendedS4Shape (s : String) : Bool :=
  match s.data with
  | '_' :: 'Z' :: 'N' :: rest =>
    let d1 := rest.takeWhile isDigitChar
    let r1 := rest.dropWhile isDigitChar
    match r1 with
    | 'N' :: r2 =>
      let h1 := r2.take 8
      let r3 := r2.drop 8
      let d2 := r3.takeWhile isDigitChar
      let r4 := r3.dropWhile isDigitChar
      match r4 with
      | 'M' :: r5 =>
        !d1.isEmpty && h1.length == 8 && h1.all isLowerHexChar &&
        !d2.isEmpty && (r5.take 10).length == 10 &&
        (r5.take 10).all isLowerHexChar &&
        r5.drop 10 == ['E', 'v']
      | _ => false
    | _ => false
  | _ => false

/-- The claim's description of the text rewriter, transcribed: scan the
text one position at a time; when the original starts at the cursor and
the character before the cursor and the character just past the match
are both not identifier characters, emit the obfuscated name and resume
immediately after it (the matched original is consumed, so substituted
text is never re-scanned); otherwise emit one character and advance. -/
def scanSpec (orig obf : List Char) (prev : Option Char) :
    List Char → List Char
  | [] => []
  | c :: t =>
    if h : orig ≠ [] ∧ orig.isPrefixOf (c :: t) ∧ ¬ isIdentOpt prev ∧
        ¬ isIdentOpt (((c :: t).drop orig.length).head?) then
      obf ++ scanSpec orig obf (lastPrev obf prev) ((c :: t).drop orig.length)
    else
      c :: scanSpec orig obf (some c) t
termination_by todo => todo.length
decreasing_by
  · have : 0 < orig.length := List.length_pos.mpr h.1
    simp only [List.length_drop, List.length_cons]
    omega
  · simp

/-! ## Helper lemmas -/

theorem assignComponent_parameter_types (comps : CppSymbolComponents)
    (component : String) :
    (assignComponent comps component).parameter_types =
      comps.parameter_types := by
  unfold assignComponent
  split
  · rfl
  · split <;> rfl

/-- `CppDemangler::parse` never fills `parameter_types`: the nested
component loop only writes name components. -/
theorem parseNestedAux_parameter_types (fuel : Nat)
    (comps : CppSymbolComponents) (rest : List Char) :
    (parseNestedAux fuel comps rest).parameter_types =
      comps.parameter_types := by
  induction fuel generalizing comps rest with
  | zero => cases rest <;> rfl
  | succ fuel ih =>
    cases rest with
    | nil => rfl
    | cons c cs =>
      rw [parseNestedAux]
      split
      · rfl
      · split
        · rw [ih, assignComponent_parameter_types]
        · rfl

/-- `parse` returns empty `parameter_types` on every input and for
every demangler: the trailing parameter bytes of the mangled name are
never captured. -/
theorem parse_parameter_types (demangle : String → String) (s : String) :
    (parse demangle s).parameter_types = [] := by
  rw [parse]
  split
  · rfl
  · split
    · rfl
    · split
      · rfl
      · split
        · rfl
        · split
          · exact parseNestedAux_parameter_types _ _ _
          · rfl

theorem hexDigit_mem (n : Nat) (h : n < 16) : hexDigit n ∈ hexChars := by
  interval_cases n <;> decide

theorem hexDigitsAux_subset (fuel n : Nat) :
    ∀ c ∈ hexDigitsAux fuel n, c ∈ hexChars := by
  induction fuel generalizing n with
  | zero =>
    cases n with
    | zero => intro c hc; exact absurd hc (by simp [hexDigitsAux])
    | succ m => intro c hc; exact absurd hc (by simp [hexDigitsAux])
  | succ fuel ih =>
    cases n with
    | zero => intro c hc; exact absurd hc (by simp [hexDigitsAux])
    | succ m =>
      intro c hc
      rw [hexDigitsAux] at hc
      rcases List.mem_append.mp hc with hc' | hc'
      · exact ih _ c hc'
      · rcases List.mem_singleton.mp hc' with rfl
        exact hexDigit_mem _ (Nat.mod_lt _ (by omega))

theorem hexPad_subset (w n : Nat) : ∀ c ∈ hexPad w n, c ∈ hexChars := by
  intro c hc
  unfold hexPad at hc
  rcases List.mem_append.mp hc with hc' | hc'
  · rcases List.eq_of_mem_replicate hc' with rfl
    decide
  · split at hc'
    · rcases List.mem_singleton.mp hc' with rfl
      decide
    · exact hexDigitsAux_subset _ _ c hc'

theorem hexPad_ne_nil (w n : Nat) : hexPad w n ≠ [] := by
  unfold hexPad
  intro h
  rcases List.append_eq_nil.mp h with ⟨_, h2⟩
  revert h2
  split
  · simp
  · next hn =>
    cases n with
    | zero => exact absurd rfl hn
    | succ m => rw [hexDigitsOf, hexDigitsAux]; simp

theorem hexEncode_subset (bytes : List Nat) :
    ∀ c ∈ (hexEncode bytes).data, c ∈ hexChars := by
  induction bytes with
  | nil => intro c hc; exact absurd hc (by simp [hexEncode])
  | cons b bs ih =>
    intro c hc
    have : (hexEncode (b :: bs)).data =
        hexPad 2 b ++ (hexEncode bs).data := rfl
    rw [this] at hc
    rcases List.mem_append.mp hc with hc' | hc'
    · exact hexPad_subset _ _ c hc'
    · exact ih c hc'

theorem hexEncode_ne_nil (bytes : List Nat) (h : bytes ≠ []) :
    (hexEncode bytes).data ≠ [] := by
  cases bytes with
  | nil => exact absurd rfl h
  | cons b bs =>
    have : (hexEncode (b :: bs)).data =
        hexPad 2 b ++ (hexEncode bs).data := rfl
    rw [this]
    intro hnil
    exact hexPad_ne_nil 2 b (List.append_eq_nil.mp hnil).1

theorem sha256Round_length (st : List Nat) (kw : Nat × Nat) :
    (sha256Round st kw).length = st.length := by
  unfold sha256Round
  split <;> rfl

theorem sha256_foldl_length (l : List (Nat × Nat)) (st : List Nat) :
    (l.foldl sha256Round st).length = st.length := by
  induction l generalizing st with
  | nil => rfl
  | cons p l ih => rw [List.foldl_cons, ih, sha256Round_length]

theorem sha256Chunk_length (hws chunk : List Nat) :
    (sha256Chunk hws chunk).length = hws.length := by
  unfold sha256Chunk
  rw [List.length_map, List.length_zip, sha256_foldl_length]
  omega

theorem sha256_chunks_foldl_length (chunks : List (List Nat))
    (hws : List Nat) :
    (chunks.foldl sha256Chunk hws).length = hws.length := by
  induction chunks generalizing hws with
  | nil => rfl
  | cons c l ih => rw [List.foldl_cons, ih, sha256Chunk_length]

theorem sha256Bytes_ne_nil (msg : List Nat) : sha256Bytes msg ≠ [] := by
  unfold sha256Bytes
  have hlen : ((chunksOf 64 (sha256Pad msg)).foldl sha256Chunk shaH0).length
      = 8 := sha256_chunks_foldl_length _ _
  cases hws : (chunksOf 64 (sha256Pad msg)).foldl sha256Chunk shaH0 with
  | nil => rw [hws] at hlen; simp at hlen
  | cons w ws =>
    intro hnil
    rw [List.flatMap_cons] at hnil
    have : (beBytes 4 w).length = 4 := by
      unfold beBytes
      rw [List.length_map, List.length_range]
    rcases List.append_eq_nil.mp hnil with ⟨h1, _⟩
    rw [h1] at this
    simp at this

theorem blakeCompress_length (h m : List Nat) (t : Nat) (last : Bool) :
    (blakeCompress h m t last).length = 8 := by
  unfold blakeCompress
  rw [List.length_map, List.length_range]

theorem blake2bStep_length (msg : List Nat) (blocks : List (List Nat))
    (h : List Nat) (i : Nat) : (blake2bStep msg blocks h i).length = 8 := by
  unfold blake2bStep
  split <;> exact blakeCompress_length _ _ _ _

theorem foldl_length_eight (step : List Nat → Nat → List Nat)
    (hstep : ∀ acc i, (step acc i).length = 8) (l : List Nat) :
    ∀ acc : List Nat, acc.length = 8 → (l.foldl step acc).length = 8 := by
  induction l with
  | nil => intro acc h; exact h
  | cons x xs ih =>
    intro acc h
    rw [List.foldl_cons]
    exact ih _ (hstep acc x)

theorem blake2b512Bytes_ne_nil (msg : List Nat) :
    blake2b512Bytes msg ≠ [] := by
  unfold blake2b512Bytes
  have hlen : (((List.range (chunksOf 128 (blake2bPad msg)).length).foldl
      (blake2bStep msg (chunksOf 128 (blake2bPad msg)))
      blake2bH0)).length = 8 :=
    foldl_length_eight _ (fun acc i => blake2bStep_length _ _ _ _) _
      blake2bH0 (by decide)
  cases hws : (List.range (chunksOf 128 (blake2bPad msg)).length).foldl
      (blake2bStep msg (chunksOf 128 (blake2bPad msg))) blake2bH0 with
  | nil => rw [hws] at hlen; simp at hlen
  | cons w ws =>
    intro hnil
    rw [List.flatMap_cons] at hnil
    have h8 : (leBytes 8 w).length = 8 := by
      unfold leBytes
      rw [List.length_map, List.length_range]
    rcases List.append_eq_nil.mp hnil with ⟨h1, _⟩
    rw [h1] at h8
    simp at h8
/-- Truncation keeps the hash a non-empty hexadecimal string (given a
positive configured length). -/
theorem truncateHash_shape (full : String) (len : Nat) (h1 : 1 ≤ len)
    (hfull : full.data ≠ []) (hsub : ∀ c ∈ full.data, c ∈ hexChars) :
    (truncateHash full len).data ≠ [] ∧
      ∀ c ∈ (truncateHash full len).data, c ∈ hexChars := by
  unfold truncateHash
  split
  · exact ⟨hfull, hsub⟩
  · constructor
    · show full.data.take len ≠ []
      intro hnil
      rcases List.take_eq_nil_iff.mp hnil with h | h
      · omega
      · exact hfull h
    · intro c hc
      exact hsub c (List.mem_of_mem_take hc)

/-- Every primitive's output is a non-empty lower-case hexadecimal
string, hence so is `generateHash`'s for a positive configured
length. -/
theorem generateHash_shape (cfg : HashConfig) (name ctx : String)
    (hlen : 1 ≤ cfg.hash_length) :
    (generateHash cfg name ctx).data ≠ [] ∧
      ∀ c ∈ (generateHash cfg name ctx).data, c ∈ hexChars := by
  unfold generateHash
  split
  · exact truncateHash_shape _ _ hlen
      (hexEncode_ne_nil _ (sha256Bytes_ne_nil _)) (hexEncode_subset _)
  · exact truncateHash_shape _ _ hlen
      (hexEncode_ne_nil _ (blake2b512Bytes_ne_nil _)) (hexEncode_subset _)
  · exact truncateHash_shape _ _ hlen (hexPad_ne_nil 16 _)
      (hexPad_subset 16 _)

theorem hexChar_validIdentCont (c : Char) (h : c ∈ hexChars) :
    validIdentCont c = true := by
  fin_cases h <;> decide

theorem hexChar_validIdentStart (c : Char) (h : c ∈ hexChars)
    (hd : isDigitChar c = false) : validIdentStart c = true := by
  fin_cases h <;> revert hd <;> decide

/-- Appending hexadecimal characters to a valid identifier keeps it
valid. -/
theorem validIdentList_append_hex (l1 l2 : List Char)
    (h1 : validIdentList l1 = true) (h2 : ∀ c ∈ l2, c ∈ hexChars) :
    validIdentList (l1 ++ l2) = true := by
  cases l1 with
  | nil => exact absurd h1 (by simp [validIdentList])
  | cons c cs =>
    simp only [validIdentList, List.cons_append, Bool.and_eq_true,
      List.all_eq_true] at h1 ⊢
    refine ⟨h1.1, ?_⟩
    intro x hx
    rcases List.mem_append.mp hx with hx' | hx'
    · exact h1.2 x hx'
    · exact hexChar_validIdentCont x (h2 x hx')

/-- `CryptoHasher::applyPrefix` always emits a valid C identifier, for
a non-empty hexadecimal hash and any prefix the hasher's entry points
supply (empty, or itself a valid identifier such as `f_`, `v_`, `C_`,
`N_`, `a_`; under the typed style the entry points always pass a
non-empty prefix). -/
theorem applyPrefix_valid (cfg : HashConfig) (hash pre : String)
    (hne : hash.data ≠ []) (hhex : ∀ c ∈ hash.data, c ∈ hexChars)
    (hpre : pre = "" ∨ isValidCIdent pre = true)
    (htyped : cfg.prefix_style = .TYPED → pre ≠ "") :
    isValidCIdent (applyPrefix cfg hash pre) = true := by
  unfold applyPrefix
  split
  · next hp =>
    rcases hpre with rfl | hvp
    · exact absurd rfl hp
    · show validIdentList (pre ++ hash).data = true
      rw [String.data_append]
      exact validIdentList_append_hex _ _ hvp hhex
  · next hp =>
    have hpe : pre = "" := by
      by_contra hne'
      exact hp hne'
    split
    · show validIdentList (("_" : String) ++ hash).data = true
      rw [String.data_append]
      exact validIdentList_append_hex _ _ (by decide) hhex
    · next hund =>
      split
      · next hnone =>
        split
        · next c cs hcons =>
          split
          · show validIdentList (("s_" : String) ++ hash).data = true
            rw [String.data_append]
            exact validIdentList_append_hex _ _ (by decide) hhex
          · next hdig =>
            show validIdentList hash.data = true
            rw [hcons]
            simp only [validIdentList, Bool.and_eq_true, List.all_eq_true]
            have hcmem : c ∈ hash.data := by
              rw [hcons]
              exact List.mem_cons_self _ _
            refine ⟨hexChar_validIdentStart c (hhex c hcmem)
              (by revert hdig; cases isDigitChar c <;> simp), ?_⟩
            intro x hx
            have hxmem : x ∈ hash.data := by
              rw [hcons]
              exact List.mem_cons_of_mem _ hx
            exact hexChar_validIdentCont x (hhex x hxmem)
        · next hnil => exact absurd hnil hne
      · next hnone =>
        cases hs : cfg.prefix_style with
        | NONE => exact absurd hs hnone
        | TYPED => exact absurd hpe (htyped hs)
        | UNDERSCORE => exact absurd hs hund

/-- Every name the collision loop can answer is a prefixed
`generateHash` output. -/
theorem uniqueLoop_ok_shape (h : Hasher) (name : String)
    (used : List String) (pre : String) :
    ∀ (fuel counter : Nat) (full f : String),
      uniqueLoop h name used pre full counter fuel = .ok f →
      (∃ s, full = applyPrefix h.config (generateHash h.config s "") pre) →
      ∃ s, f = applyPrefix h.config (generateHash h.config s "") pre := by
  intro fuel
  induction fuel with
  | zero => intro counter full f hok; simp [uniqueLoop] at hok
  | succ fuel ih =>
    intro counter full f hok hshape
    rw [uniqueLoop] at hok
    split at hok
    · split at hok
      · exact absurd hok (by simp)
      · exact ih _ _ _ hok ⟨name ++ "_" ++ toString counter, rfl⟩
    · simp only [Except.ok.injEq] at hok
      subst hok
      exact hshape

/-- A result of the collision loop is free in both consulted sets. -/
theorem uniqueLoop_ok_not_busy (h : Hasher) (name : String)
    (used : List String) (pre : String) :
    ∀ (fuel counter : Nat) (full f : String),
      uniqueLoop h name used pre full counter fuel = .ok f →
      f ∉ used ∧ f ∉ h.used_hashes := by
  intro fuel
  induction fuel with
  | zero => intro counter full f hok; simp [uniqueLoop] at hok
  | succ fuel ih =>
    intro counter full f hok
    rw [uniqueLoop] at hok
    split at hok
    · split at hok
      · exact absurd hok (by simp)
      · exact ih _ _ _ hok
    · next hnb =>
      simp only [Except.ok.injEq] at hok
      subst hok
      exact not_or.mp hnb

/-- The collision loop returns the first free candidate: if every
candidate strictly between the current counter and `k` is taken and
candidate `k` is free (`k ≤ 10000`), the loop answers candidate `k`. -/
theorem uniqueLoop_first_free (h : Hasher) (name : String)
    (used : List String) (pre : String) (k : Nat) (hk : k ≤ 10000)
    (hfree : ¬ (uniqueCand h.config name pre k ∈ used ∨
                uniqueCand h.config name pre k ∈ h.used_hashes)) :
    ∀ (fuel counter : Nat), counter ≤ k → k - counter < fuel →
      (∀ j, counter ≤ j → j < k →
        (uniqueCand h.config name pre j ∈ used ∨
         uniqueCand h.config name pre j ∈ h.used_hashes)) →
      uniqueLoop h name used pre (uniqueCand h.config name pre counter)
        counter fuel = .ok (uniqueCand h.config name pre k) := by
  intro fuel
  induction fuel with
  | zero => intro counter _ hfuel _; omega
  | succ fuel ih =>
    intro counter hck hfuel hbusy
    rw [uniqueLoop]
    by_cases hb : uniqueCand h.config name pre counter ∈ used ∨
        uniqueCand h.config name pre counter ∈ h.used_hashes
    · rw [if_pos hb]
      have hlt : counter < k := by
        rcases Nat.eq_or_lt_of_le hck with heq | hlt
        · exact absurd hb (heq ▸ hfree)
        · exact hlt
      rw [if_neg (by omega)]
      have hcand : applyPrefix h.config
          (generateHash h.config (name ++ "_" ++ toString counter) "") pre =
          uniqueCand h.config name pre (counter + 1) := rfl
      rw [hcand]
      exact ih (counter + 1) (by omega) (by omega)
        (fun j hj1 hj2 => hbusy j (by omega) hj2)
    · rw [if_neg hb]
      have hek : counter = k := by
        by_contra hne
        exact hb (hbusy counter le_rfl (lt_of_le_of_ne hck hne))
      rw [hek]

/-- When every candidate up to counter 10 000 is taken, the loop throws
the collision-exhausted error. -/
theorem uniqueLoop_exhaust (h : Hasher) (name : String)
    (used : List String) (pre : String)
    (hbusy : ∀ j, j ≤ 10000 →
      (uniqueCand h.config name pre j ∈ used ∨
       uniqueCand h.config name pre j ∈ h.used_hashes)) :
    ∀ (fuel counter : Nat), counter ≤ 10000 → 10001 - counter < fuel →
      uniqueLoop h name used pre (uniqueCand h.config name pre counter)
        counter fuel = .error ("Too many hash collisions for: " ++ name) := by
  intro fuel
  induction fuel with
  | zero => intro counter _ hfuel; omega
  | succ fuel ih =>
    intro counter hc hfuel
    rw [uniqueLoop, if_pos (hbusy counter hc)]
    by_cases hstop : counter + 1 > 10000
    · rw [if_pos hstop]
    · rw [if_neg hstop]
      have hcand : applyPrefix h.config
          (generateHash h.config (name ++ "_" ++ toString counter) "") pre =
          uniqueCand h.config name pre (counter + 1) := rfl
      rw [hcand]
      exact ih (counter + 1) (by omega) (by omega)

/-- A successful `generateUniqueHash` returns a name absent from the
instance set (and from the caller's set), and extends both sets with
exactly that name. -/
theorem generateUniqueHash_ok (h : Hasher) (name : String)
    (used : List String) (pre : String) (r : String) (h' : Hasher)
    (l' : List String)
    (hok : generateUniqueHash h name used pre = .ok (r, h', l')) :
    r ∉ used ∧ r ∉ h.used_hashes ∧
      h' = { h with used_hashes := r :: h.used_hashes } ∧ l' = r :: used := by
  unfold generateUniqueHash at hok
  cases hL : uniqueLoop h name used pre (uniqueCand h.config name pre 0) 0
      10002 with
  | error e => rw [hL] at hok; exact absurd hok (by simp)
  | ok f =>
    rw [hL] at hok
    simp only [Except.ok.injEq, Prod.mk.injEq] at hok
    obtain ⟨h1, h2, h3⟩ := hok
    obtain ⟨hu, hi⟩ := uniqueLoop_ok_not_busy h name used pre _ _ _ _ hL
    subst h1
    exact ⟨hu, hi, h2.symm, h3.symm⟩

/-- The typed hash entries all delegate to `generateUniqueHash` with a
fresh temporary set. -/
theorem hashForSymbol_ok (h : Hasher) (sym : SymbolMapping) (r : String)
    (h' : Hasher) (l' : List String)
    (hok : hashForSymbol h sym = .ok (r, h', l')) :
    r ∉ h.used_hashes ∧
      h' = { h with used_hashes := r :: h.used_hashes } := by
  unfold hashForSymbol at hok
  split at hok <;>
  · first
    | rw [hashFunction] at hok
    | rw [hashVariable] at hok
    | rw [hashClass] at hok
    exact ⟨(generateUniqueHash_ok _ _ _ _ _ _ _ hok).2.1,
           (generateUniqueHash_ok _ _ _ _ _ _ _ hok).2.2.1⟩

/-! ## Claims -/

/-- **C5.**  The unique-hash loop of `CryptoHasher::generateUniqueHash`:
the prefixed primary hash is returned when free (`uniqueCand … 0`, which
for a non-empty prefix is literally `prefix ‖ hash(name)` — first
conjunct); on collision the candidates `hash(name ‖ "_" ‖ counter)` for
`counter = 0, 1, …` are tried and the first free one (`uniqueCand … k`)
is inserted into both sets and returned; and when every candidate
through counter step 10 000 is taken, the call fails with the
collision-exhausted error. -/
theorem C5_unique_hash_loop :
    (∀ (cfg : HashConfig) (hash pre : String), pre ≠ "" →
      applyPrefix cfg hash pre = pre ++ hash) ∧
    (∀ (h : Hasher) (name : String) (used : List String) (pre : String)
        (k : Nat), k ≤ 10000 →
      (∀ j, j < k → (uniqueCand h.config name pre j ∈ used ∨
                     uniqueCand h.config name pre j ∈ h.used_hashes)) →
      ¬ (uniqueCand h.config name pre k ∈ used ∨
         uniqueCand h.config name pre k ∈ h.used_hashes) →
      generateUniqueHash h name used pre =
        .ok (uniqueCand h.config name pre k,
             { h with used_hashes :=
                uniqueCand h.config name pre k :: h.used_hashes },
             uniqueCand h.config name pre k :: used)) ∧
    (∀ (h : Hasher) (name : String) (used : List String) (pre : String),
      (∀ j, j ≤ 10000 → (uniqueCand h.config name pre j ∈ used ∨
                         uniqueCand h.config name pre j ∈ h.used_hashes)) →
      generateUniqueHash h name used pre =
        .error ("Too many hash collisions for: " ++ name)) := by
  refine ⟨?_, ?_, ?_⟩
  · intro cfg hash pre hpre
    unfold applyPrefix
    rw [if_pos hpre]
  · intro h name used pre k hk hbusy hfree
    unfold generateUniqueHash
    rw [uniqueLoop_first_free h name used pre k hk hfree 10002 0 (by omega)
      (by omega) (fun j _ hj => hbusy j hj)]
  · intro h name used pre hbusy
    unfold generateUniqueHash
    rw [uniqueLoop_exhaust h name used pre hbusy 10002 0 (by omega)
      (by omega)]

theorem SymbolType_ofInt_toInt (t : SymbolType) :
    SymbolType.ofInt t.toInt = t := by
  cases t <;> rfl

theorem Linkage_ofInt_toInt (l : Linkage) : Linkage.ofInt l.toInt = l := by
  cases l <;> rfl

/-- A single mapping entry survives the serialize/deserialize pair
unchanged. -/
theorem importExportSymbol (mp : SymbolMapping) :
    importSymbolJson (exportSymbolJson mp) = mp := by
  obtain ⟨o, ob, t, l, a, s, f, ln⟩ := mp
  cases t <;> cases l <;> rfl

/-- **C7.**  Mapping round-trip: deserializing the serialized mapping
document restores every entry — original, obfuscated, type, linkage,
address, size, source file and line — unchanged, for every mapping. -/
theorem C7_mapping_roundtrip (mappings : List SymbolMapping)
    (alg : HashAlgorithm) :
    importMappingJson (exportMappingJson mappings alg) = mappings := by
  have h0 : importMappingJson (exportMappingJson mappings alg) =
      (mappings.map exportSymbolJson).map importSymbolJson := rfl
  rw [h0, List.map_map]
  have hcomp : importSymbolJson ∘ exportSymbolJson = id :=
    funext importExportSymbol
  rw [hcomp, List.map_id]

/-- One call on a `CryptoHasher` instance through any of its typed
entries (`hashFunction`, `hashVariable`, `hashClass`,
`hashNamespace`). -/
inductive HashReq
  | fn (name : String)
  | var (name : String)
  | cls (name : String)
  | ns (name : String)

def runReq (h : Hasher) : HashReq → Except String (String × Hasher × List String)
  | .fn n => hashFunction h n
  | .var n => hashVariable h n
  | .cls n => hashClass h n
  | .ns n => hashNamespace h n

/-- A sequence of typed hash calls on one instance; a failing call
aborts the sequence (the C++ exception propagates), so the collected
results are those of the successful calls. -/
def runCalls (h : Hasher) : List HashReq → List String × Hasher
  | [] => ([], h)
  | r :: rs =>
    match runReq h r with
    | .error _ => ([], h)
    | .ok (s, h', _) =>
      let p := runCalls h' rs
      (s :: p.1, p.2)

theorem runReq_ok (h : Hasher) (req : HashReq) (r : String) (h' : Hasher)
    (l' : List String) (hok : runReq h req = .ok (r, h', l')) :
    r ∉ h.used_hashes ∧
      h' = { h with used_hashes := r :: h.used_hashes } := by
  cases req <;>
  · rw [runReq] at hok
    first
    | rw [hashFunction] at hok
    | rw [hashVariable] at hok
    | rw [hashClass] at hok
    | rw [hashNamespace] at hok
    exact ⟨(generateUniqueHash_ok _ _ _ _ _ _ _ hok).2.1,
           (generateUniqueHash_ok _ _ _ _ _ _ _ hok).2.2.1⟩

/-- **C10.**  Within one `CryptoHasher` instance, every successful
typed hash call returns an identifier distinct from every identifier
returned by an earlier call (the collected results are `Nodup` — in
particular two calls with the same name give different identifiers),
none of them was in the instance's `used_hashes_` set at the start, and
that set only ever grows (every starting member and every result is in
the final set). -/
theorem C10_instance_results_distinct (h : Hasher) (reqs : List HashReq) :
    (runCalls h reqs).1.Nodup ∧
    (∀ s ∈ (runCalls h reqs).1, s ∉ h.used_hashes) ∧
    (∀ s ∈ h.used_hashes, s ∈ (runCalls h reqs).2.used_hashes) ∧
    (∀ s ∈ (runCalls h reqs).1, s ∈ (runCalls h reqs).2.used_hashes) := by
  induction reqs generalizing h with
  | nil => simp [runCalls]
  | cons r rs ih =>
    rw [runCalls]
    cases hr : runReq h r with
    | error e => simp
    | ok t =>
      obtain ⟨s, h', l'⟩ := t
      obtain ⟨hnotin, hupd⟩ := runReq_ok h r s h' l' hr
      obtain ⟨ih1, ih2, ih3, ih4⟩ := ih h'
      have hsub : ∀ x ∈ h.used_hashes, x ∈ h'.used_hashes := by
        intro x hx
        rw [hupd]
        exact List.mem_cons_of_mem _ hx
      have hs' : s ∈ h'.used_hashes := by
        rw [hupd]
        exact List.mem_cons_self _ _
      refine ⟨?_, ?_, ?_, ?_⟩
      · refine List.nodup_cons.mpr ⟨?_, ih1⟩
        intro hmem
        exact ih2 s hmem hs'
      · intro x hx
        rcases List.mem_cons.mp hx with rfl | hx'
        · exact hnotin
        · intro hxh
          exact ih2 x hx' (hsub x hxh)
      · intro x hx
        exact ih3 x (hsub x hx)
      · intro x hx
        rcases List.mem_cons.mp hx with rfl | hx'
        · exact ih3 x hs'
        · exact ih4 x hx'

/-- **C1, amended.**  Injectivity does hold on the flat hasher path:
any two successful `generateUniqueHash` calls in sequence on one
instance — whatever the names, even equal ones — return distinct
identifiers, because the first result is inserted into the instance set
that the second call's collision loop refuses to answer from. -/
theorem C1_flat_path_injective (h : Hasher) (n1 : String)
    (u1 : List String) (p1 r1 : String) (h1 : Hasher) (l1 : List String)
    (n2 : String) (u2 : List String) (p2 r2 : String) (h2 : Hasher)
    (l2 : List String)
    (hc1 : generateUniqueHash h n1 u1 p1 = .ok (r1, h1, l1))
    (hc2 : generateUniqueHash h1 n2 u2 p2 = .ok (r2, h2, l2)) :
    r1 ≠ r2 := by
  obtain ⟨_, _, hh1, _⟩ := generateUniqueHash_ok _ _ _ _ _ _ _ hc1
  obtain ⟨_, hr2, _, _⟩ := generateUniqueHash_ok _ _ _ _ _ _ _ hc2
  intro he
  rw [← he, hh1] at hr2
  exact hr2 (List.mem_cons_self _ _)

/-- Witness for `C1_flat_path_injective`: with the SipHash
configuration, salt `""`, length 12, hashing the name `alpha` twice on
one instance returns first `f_735796c96098` and then (after one
collision retry) `f_10eea3dbbbde`. -/
theorem C1_flat_path_injective_witness :
    ("f_735796c96098" : String) ≠ "f_10eea3dbbbde" :=
  C1_flat_path_injective
    { config := { algorithm := .SIPHASH } } "alpha" [] "f_"
    "f_735796c96098"
    { config := { algorithm := .SIPHASH },
      used_hashes := ["f_735796c96098"] } ["f_735796c96098"]
    "alpha" [] "f_" "f_10eea3dbbbde"
    { config := { algorithm := .SIPHASH },
      used_hashes := ["f_10eea3dbbbde", "f_735796c96098"] }
    ["f_10eea3dbbbde"] (by rfl) (by rfl)

theorem lastPrev_cons (c : Char) (b : List Char) (prev : Option Char) :
    lastPrev (c :: b) prev = lastPrev b (some c) := by
  unfold lastPrev
  cases b with
  | nil => rfl
  | cons d bs =>
    rw [List.getLast?_cons_cons]
    cases hgl : (d :: bs).getLast? with
    | none => simp at hgl
    | some x => rfl

/-- Unfolding `replaceSymbol`'s loop when no occurrence remains. -/
theorem replaceAux_none (orig obf : List Char) (prev : Option Char)
    (todo : List Char) (ho : orig ≠ []) (hs : splitOcc orig todo = none) :
    replaceSymbolAux orig obf prev todo = todo := by
  unfold replaceSymbolAux
  rw [dif_neg ho]
  split
  · rfl
  · next heq => rw [hs] at heq; cases heq

/-- Unfolding `replaceSymbol`'s loop at the first occurrence. -/
theorem replaceAux_some (orig obf : List Char) (prev : Option Char)
    (todo before after : List Char) (ho : orig ≠ [])
    (hs : splitOcc orig todo = some (before, after)) :
    replaceSymbolAux orig obf prev todo =
      if ¬ isIdentOpt (lastPrev before prev) ∧ ¬ isIdentOpt after.head? then
        before ++ obf ++
          replaceSymbolAux orig obf
            (lastPrev obf (lastPrev before prev)) after
      else
        before ++ orig ++ replaceSymbolAux orig obf orig.getLast? after := by
  conv_lhs => rw [replaceSymbolAux]
  rw [dif_neg ho]
  split
  · next heq => rw [hs] at heq; cases heq
  · next b a heq =>
    rw [hs] at heq
    cases heq
    rfl

/-- Stepping the loop one character when the original does not start at
the cursor. -/
theorem replaceAux_cons (orig obf : List Char) (prev : Option Char)
    (c : Char) (t : List Char) (ho : orig ≠ [])
    (hp : ¬ orig.isPrefixOf (c :: t)) :
    replaceSymbolAux orig obf prev (c :: t) =
      c :: replaceSymbolAux orig obf (some c) t := by
  cases hs : splitOcc orig t with
  | none =>
    have hs2 : splitOcc orig (c :: t) = none := by
      rw [splitOcc, if_neg hp, hs]
      rfl
    rw [replaceAux_none _ _ _ _ ho hs2, replaceAux_none _ _ _ _ ho hs]
  | some p =>
    obtain ⟨b, a⟩ := p
    have hs2 : splitOcc orig (c :: t) = some (c :: b, a) := by
      rw [splitOcc, if_neg hp, hs]
      rfl
    rw [replaceAux_some _ _ _ _ _ _ ho hs2,
      replaceAux_some _ _ _ _ _ _ ho hs, lastPrev_cons]
    by_cases hC : ¬ isIdentOpt (lastPrev b (some c)) ∧
        ¬ isIdentOpt a.head?
    · rw [if_pos hC, if_pos hC]
      simp
    · rw [if_neg hC, if_neg hC]
      simp

/-- The scanner leaves a text with no occurrence unchanged. -/
theorem scanSpec_none (orig obf : List Char) :
    ∀ (todo : List Char), splitOcc orig todo = none →
      ∀ prev, scanSpec orig obf prev todo = todo := by
  intro todo
  induction todo with
  | nil => intro _ prev; simp [scanSpec]
  | cons c t ih =>
    intro hs prev
    have hnp : ¬ orig.isPrefixOf (c :: t) := by
      intro hp
      rw [splitOcc, if_pos hp] at hs
      cases hs
    have ht : splitOcc orig t = none := by
      rw [splitOcc, if_neg hnp] at hs
      exact Option.map_eq_none'.mp hs
    rw [scanSpec, dif_neg (fun hcond => hnp hcond.2.1)]
    exact congrArg (c :: ·) (ih ht (some c))

/-- The scanner walks straight through a run of identifier characters
whose predecessor is an identifier character: no position inside it can
satisfy the boundary test. -/
theorem scanSpec_ident_seg (orig obf : List Char) :
    ∀ (seg rest : List Char) (c : Char), isIdentChar c = true →
      (∀ x ∈ seg, isIdentChar x = true) →
      scanSpec orig obf (some c) (seg ++ rest) =
        seg ++ scanSpec orig obf (some (seg.getLastD c)) rest := by
  intro seg
  induction seg with
  | nil => intro rest c _ _; rfl
  | cons d seg' ih =>
    intro rest c hc hseg
    rw [List.cons_append, scanSpec,
      dif_neg (fun hcond => hcond.2.2.1 (by simp [isIdentOpt, hc]))]
    rw [ih rest d (hseg d (List.mem_cons_self _ _))
      (fun x hx => hseg x (List.mem_cons_of_mem _ hx))]
    rw [List.getLastD_cons]
    exact (List.cons_append _ _ _).symm

/-- The loop of `replaceSymbol` computes exactly the claim's
whole-word scan, for a non-empty original made of identifier
characters. -/
theorem replaceAux_eq_scanSpec (orig obf : List Char) (ho : orig ≠ [])
    (hid : ∀ c ∈ orig, isIdentChar c = true) :
    ∀ (n : Nat) (todo : List Char), todo.length ≤ n → ∀ prev,
      replaceSymbolAux orig obf prev todo = scanSpec orig obf prev todo := by
  intro n
  induction n with
  | zero =>
    intro todo hlen prev
    have hnil : todo = [] := List.eq_nil_of_length_eq_zero
      (Nat.le_zero.mp hlen)
    subst hnil
    rw [replaceAux_none _ _ _ _ ho (by rw [splitOcc, if_neg ho])]
    simp [scanSpec]
  | succ n ih =>
    intro todo hlen prev
    cases todo with
    | nil =>
      rw [replaceAux_none _ _ _ _ ho (by rw [splitOcc, if_neg ho])]
      simp [scanSpec]
    | cons c t =>
      by_cases hpre : orig.isPrefixOf (c :: t)
      · obtain ⟨u, hu⟩ := List.isPrefixOf_iff_prefix.mp hpre
        have hdrop : (c :: t).drop orig.length = u := by
          rw [← hu, List.drop_left]
        have hsplit : splitOcc orig (c :: t) = some ([], u) := by
          rw [splitOcc, if_pos hpre, hdrop]
        have hopos : 0 < orig.length := List.length_pos.mpr ho
        have hulen : u.length ≤ n := by
          have h1 := congrArg List.length hu
          simp only [List.length_append, List.length_cons] at h1
          simp only [List.length_cons] at hlen
          omega
        rw [replaceAux_some _ _ _ _ _ _ ho hsplit]
        have hlp : lastPrev [] prev = prev := rfl
        rw [hlp]
        by_cases hww : ¬ isIdentOpt prev ∧ ¬ isIdentOpt u.head?
        · rw [if_pos hww, scanSpec,
            dif_pos ⟨ho, hpre, hww.1, by rw [hdrop]; exact hww.2⟩, hdrop]
          simp only [List.nil_append]
          exact congrArg (obf ++ ·) (ih u hulen _)
        · rw [if_neg hww, scanSpec,
            dif_neg (fun hcond => hww ⟨hcond.2.2.1, by
              rw [hdrop] at hcond; exact hcond.2.2.2⟩)]
          obtain ⟨o0, os, rfl⟩ : ∃ o0 os, orig = o0 :: os := by
            cases orig with
            | nil => exact absurd rfl ho
            | cons a b => exact ⟨a, b, rfl⟩
          rw [List.cons_append] at hu
          injection hu with hu0 hu1
          subst hu1
          rw [← hu0]
          rw [scanSpec_ident_seg (o0 :: os) obf os u o0
            (hid o0 (List.mem_cons_self _ _))
            (fun x hx => hid x (List.mem_cons_of_mem _ hx))]
          have hgl : (o0 :: os).getLast? = some (os.getLastD o0) := by
            simp [List.getLast?_cons, List.getLastD_eq_getLast?]
          rw [hgl, ih u hulen (some (os.getLastD o0))]
          simp only [List.nil_append, List.cons_append, List.append_assoc]
      · rw [replaceAux_cons _ _ _ _ _ ho hpre, scanSpec,
          dif_neg (fun hcond => hpre hcond.2.1)]
        exact congrArg (c :: ·)
          (ih t (by simpa using Nat.le_of_succ_le_succ (by simpa using hlen))
            (some c))

/-- **C8.**  The text rewriter: (1) `replaceSymbol` replaces exactly
the whole-word occurrences — an occurrence is substituted iff the
character before it (if any) and the character just past it (if any)
are not identifier characters — scanning left to right and resuming
immediately after each inserted obfuscated name, never re-scanning
substituted text (it equals the claim's scan `scanSpec`, for the
identifier-shaped originals the scanner produces); (2) the mapping is
processed in descending order of original length; (3) `applyObfuscation`
folds `replaceSymbol` over that sorted mapping. -/
theorem C8_text_rewriter :
    (∀ (code orig obf : List Char), orig ≠ [] →
      (∀ c ∈ orig, isIdentChar c = true) →
      replaceSymbol code orig obf = scanSpec orig obf none code) ∧
    (∀ mapping : List (List Char × List Char),
      List.Pairwise (fun a b => b.1.length ≤ a.1.length)
        (sortedMapping mapping) ∧ (sortedMapping mapping).Perm mapping) ∧
    (∀ (code : List Char) (mapping : List (List Char × List Char)),
      applyObfuscation code mapping =
        (sortedMapping mapping).foldl
          (fun code p => replaceSymbol code p.1 p.2) code) := by
  refine ⟨?_, ?_, fun _ _ => rfl⟩
  · intro code orig obf ho hid
    exact replaceAux_eq_scanSpec orig obf ho hid code.length code le_rfl none
  · intro mapping
    constructor
    · have hs := @List.sorted_mergeSort (List Char × List Char)
        (fun a b => decide (lenGE a b))
        (fun a b c h1 h2 => by
          simp only [decide_eq_true_eq, lenGE] at h1 h2 ⊢
          omega)
        (fun a b => by
          simp only [Bool.or_eq_true, decide_eq_true_eq, lenGE]
          exact Nat.le_total _ _)
        mapping
      exact hs.imp (fun hab => by
        simpa only [decide_eq_true_eq, lenGE] using hab)
    · exact List.mergeSort_perm mapping _

/-- Witness for `C8_text_rewriter`: the conjuncts carry their own
universally quantified statements, instantiated here at the mapping
`foo → X`, `foo_bar → Y` on the text `foo foo_bar xfoo`. -/
theorem C8_text_rewriter_witness :
    replaceSymbol "foo foo_bar xfoo".data "foo".data "X".data =
      scanSpec "foo".data "X".data none "foo foo_bar xfoo".data :=
  C8_text_rewriter.1 "foo foo_bar xfoo".data "foo".data "X".data
    (by decide) (by decide)

/-- **C9.**  Every identifier emitted by the hasher is a valid C
identifier `[A-Za-z_][A-Za-z0-9_]*`: for every configuration with the
spec's hash length range (`hash_length ≥ 4`, though `≥ 1` is all the
proof uses) and any prefix the entry points supply (empty, or itself a
valid identifier; under the typed style a non-empty one), a successful
`generateUniqueHash` result validates.  In particular, under prefix
style NONE with the empty prefix, `applyPrefix` prepends `s_` exactly
when the hash's first character is a digit and returns the hash
unchanged otherwise. -/
theorem C9_emitted_identifiers_valid :
    (∀ (h : Hasher) (name : String) (used : List String)
        (pre r : String) (h' : Hasher) (l' : List String),
      4 ≤ h.config.hash_length →
      (pre = "" ∨ isValidCIdent pre = true) →
      (h.config.prefix_style = .TYPED → pre ≠ "") →
      generateUniqueHash h name used pre = .ok (r, h', l') →
      isValidCIdent r = true) ∧
    (∀ (cfg : HashConfig) (hash : String) (c : Char) (cs : List Char),
      cfg.prefix_style = .NONE → hash.data = c :: cs →
      isDigitChar c = true → applyPrefix cfg hash "" = "s_" ++ hash) ∧
    (∀ (cfg : HashConfig) (hash : String) (c : Char) (cs : List Char),
      cfg.prefix_style = .NONE → hash.data = c :: cs →
      isDigitChar c = false → applyPrefix cfg hash "" = hash) := by
  refine ⟨?_, ?_, ?_⟩
  · intro h name used pre r h' l' hlen hpre htyped hok
    unfold generateUniqueHash at hok
    cases hL : uniqueLoop h name used pre
        (uniqueCand h.config name pre 0) 0 10002 with
    | error e => rw [hL] at hok; exact absurd hok (by simp)
    | ok f =>
      rw [hL] at hok
      simp only [Except.ok.injEq, Prod.mk.injEq] at hok
      obtain ⟨hrf, -, -⟩ := hok
      obtain ⟨s, hfs⟩ := uniqueLoop_ok_shape h name used pre _ _ _ _ hL
        ⟨name, rfl⟩
      subst hrf
      rw [hfs]
      obtain ⟨hne, hhex⟩ := generateHash_shape h.config s "" (by omega)
      exact applyPrefix_valid h.config _ pre hne hhex hpre htyped
  · intro cfg hash c cs hnone hcons hdig
    unfold applyPrefix
    rw [if_neg (by simp), if_neg (by simp [hnone]), if_pos hnone]
    split
    · next c' cs' hcons' =>
      rw [hcons] at hcons'
      cases hcons'
      rw [if_pos hdig]
    · next hnil => rw [hcons] at hnil; cases hnil
  · intro cfg hash c cs hnone hcons hdig
    unfold applyPrefix
    rw [if_neg (by simp), if_neg (by simp [hnone]), if_pos hnone]
    split
    · next c' cs' hcons' =>
      rw [hcons] at hcons'
      cases hcons'
      rw [if_neg (by simp [hdig])]
    · rfl

/-- **C6, counterexample.**  The claim says both serializers emit all
four top-level fields `version`, `salt`, `hash_algorithm`, `symbols`.
At the concrete empty mapping, the source-text back end's
`exportMapping` document has no `salt` member and the IR pass's
`saveMapping` document has no `hash_algorithm` member, so the
conjunction is false. -/
theorem C6_counterexample :
    ¬ (("version" ∈ (exportMappingJson [] .SHA256).topKeys ∧
        "salt" ∈ (exportMappingJson [] .SHA256).topKeys ∧
        "hash_algorithm" ∈ (exportMappingJson [] .SHA256).topKeys ∧
        "symbols" ∈ (exportMappingJson [] .SHA256).topKeys) ∧
       ("version" ∈ (saveMappingJson [] "").topKeys ∧
        "salt" ∈ (saveMappingJson [] "").topKeys ∧
        "hash_algorithm" ∈ (saveMappingJson [] "").topKeys ∧
        "symbols" ∈ (saveMappingJson [] "").topKeys)) := by
  decide

/-- **C6, amended.**  `exportMapping` serializes exactly the top-level
fields `symbols`, `version` and `hash_algorithm` (no `salt`);
`saveMapping` serializes exactly `symbols`, `version` and `salt` (no
`hash_algorithm`). -/
theorem C6_amended (mappings : List SymbolMapping) (alg : HashAlgorithm)
    (mp : List (String × String)) (salt : String) :
    (exportMappingJson mappings alg).topKeys =
      ["symbols", "version", "hash_algorithm"] ∧
    (saveMappingJson mp salt).topKeys = ["symbols", "version", "salt"] :=
  ⟨rfl, rfl⟩

/-- The `preserve_symbols` set after the CLI driver's
`--no-preserve-main` handling (`obf_config.preserve_symbols.erase("main")`
in `tools/symbol-obfuscate.cpp`). -/
def noPreserveMainConfig : ObfuscationConfig :=
  { preserve_symbols := defaultPreserveSymbols.filter (fun s => s ≠ "main") }

/-- A scanned `main` function definition. -/
def mainFnSymbol : SymbolMapping :=
  { original_name := "main", type := .FUNCTION, linkage := .EXTERNAL }

/-- **C2.**  Code-bug evidence: even after `--no-preserve-main` erases
`main` from the configured preserve set, `shouldPreserve` still returns
true for `main` — the hard-coded `cpp_keywords` set of
`CSymbolObfuscator::shouldPreserve` contains `"main"` unconditionally —
so the driver's `generateMapping` skips a scanned `main` definition and
renames nothing, where the claim (and the tool's own `--no-preserve-main`
help text) requires `main → f_<hash>`. -/
theorem C2_main_never_renamed :
    "main" ∉ noPreserveMainConfig.preserve_symbols ∧
    shouldPreserve noPreserveMainConfig "main" = true ∧
    (generateMapping (mkCObfuscator noPreserveMainConfig)
        [mainFnSymbol]).toOption =
      some ([], mkCObfuscator noPreserveMainConfig) := by
  decide

/-- **C3.**  Code-bug evidence: the parser never captures the trailing
parameter-type bytes (`parameter_types` is empty on every input, for
every demangler), so `reconstructMangled` always appends the
empty-parameter marker `v`.  On `_ZN3Foo3barEi` the retained parameter
encoding should be the non-empty `"i"`, yet the obfuscated result ends
in `Ev` — the `i` byte is dropped, contradicting both the claim and the
source's own `// Preserve parameter types for ABI compatibility`
comment. -/
theorem C3_parameter_bytes_dropped :
    (∀ demangle : String → String,
      (parse demangle "_ZN3Foo3barEi").parameter_types = []) ∧
    (obfuscateCppSymbol demangleModel {} {} "_ZN3Foo3barEi").1 =
      "_ZN9N6a48efd711C0f433b09ab11Ma1a340d7c5Ev" := by
  refine ⟨fun demangle => parse_parameter_types demangle _, by decide⟩

/-- **C4, counterexample.**  Obfuscating `_ZN6MyClass6methodEv` (with
the pass's default SHA-256/typed/12 hash configuration) does not match
the claimed shape `^_ZN[0-9]+C[0-9a-f]{10}[0-9]+M[0-9a-f]{10}Ev$`: the
parser takes the first nested component as a namespace, and the
ill-formed length prefix `6` (for the seven-character `MyClass`)
truncates it to `MyClas` and stops the component loop, so the result
has an `N`-prefixed namespace token and no class token at all. -/
theorem C4_counterexample :
    claimedS4Shape
      (obfuscateCppSymbol demangleModel {} {} "_ZN6MyClass6methodEv").1 =
      false := by
  decide

/-- **C4, amended.**  Obfuscating `_ZN6MyClass6methodEv` yields a
result matching `^_ZN[0-9]+N[0-9a-f]{8}[0-9]+M[0-9a-f]{10}Ev$` (a
namespace token and a method token), and obfuscating
`_ZN6MyClass7method2Ev` afterwards yields the identical `N`-prefixed
namespace token — the leading thirteen characters
`_ZN` ++ `9` ++ token agree — because the per-kind namespace cache maps
the shared (truncated) component `MyClas` to one token. -/
theorem C4_amended :
    amendedS4Shape
      (obfuscateCppSymbol demangleModel {} {} "_ZN6MyClass6methodEv").1 =
        true ∧
    amendedS4Shape
      (obfuscateCppSymbol demangleModel {}
        (obfuscateCppSymbol demangleModel {} {} "_ZN6MyClass6methodEv").2
        "_ZN6MyClass7method2Ev").1 = true ∧
    (obfuscateCppSymbol demangleModel {} {} "_ZN6MyClass6methodEv").1.data.take
        13 =
      ((obfuscateCppSymbol demangleModel {}
        (obfuscateCppSymbol demangleModel {} {} "_ZN6MyClass6methodEv").2
        "_ZN6MyClass7method2Ev").1).data.take 13 := by
  decide

/-- **C1, counterexample.**  The codec path does not enforce
injectivity: the distinct names `_ZTV3Foo` and `_ZTV03Foo` (both
accepted by the mangled-name detector and both renamed) parse to the
same class component `Foo` — the vtable length-prefix loop reads the
digits `03` as the length 3 — so both obfuscate to the same output. -/
theorem C1_counterexample :
    (obfuscateCppSymbol demangleModel {} {} "_ZTV3Foo").1 =
      (obfuscateCppSymbol demangleModel {}
        (obfuscateCppSymbol demangleModel {} {} "_ZTV3Foo").2
        "_ZTV03Foo").1 ∧
    "_ZTV3Foo" ≠ "_ZTV03Foo" ∧
    (obfuscateCppSymbol demangleModel {} {} "_ZTV3Foo").1 ≠ "_ZTV3Foo" ∧
    (obfuscateCppSymbol demangleModel {}
        (obfuscateCppSymbol demangleModel {} {} "_ZTV3Foo").2
        "_ZTV03Foo").1 ≠ "_ZTV03Foo" := by
  decide

end SymbolObfuscator
